import Mathlib

/-!
# Verification of the remy planning core

A shallow embedding of the meal-planning core of the `remy` repository:

* `src/remy/planner/app/utils.py` — name normalization and inventory lookup,
* `src/remy/planner/app/constraint_engine.py` — the rule engine and ranking,
* `src/remy/planner/app/planner.py` — `_build_candidate`,
* `src/remy/agents/diff_validator.py` — the reconciliation (`DiffValidator`).

Python floats are modelled as `ℚ`, dates as day numbers in `ℤ`, and Python
`dict`s as association lists that mirror insertion-order semantics
(assignment replaces the value in place, a new key is appended at the end).
`round(x, n)` is modelled as round-half-up on `ℚ`; the reconciliation claims
never depend on tie behaviour.
-/

namespace Remy

/-! ## Python-like string primitives (all structurally recursive) -/

/-- Python `str.lower()` (ASCII case folding, as used by the repository's data). -/
def pyLower (s : String) : String := ⟨s.data.map Char.toLower⟩

/-- Strip leading and trailing whitespace from a character list (Python `str.strip()`). -/
def stripChars (l : List Char) : List Char :=
  ((l.dropWhile Char.isWhitespace).reverse.dropWhile Char.isWhitespace).reverse

/-- Python `str.strip()`. -/
def pyStrip (s : String) : String := ⟨stripChars s.data⟩

/-- One step of whitespace-splitting: used in a right fold over the characters. -/
def splitWsStep (c : Char) (acc : List (List Char)) : List (List Char) :=
  if c.isWhitespace then [] :: acc
  else
    match acc with
    | [] => [[c]]
    | w :: ws => (c :: w) :: ws

/-- Python `str.split()` with no argument: split on whitespace runs, dropping empties. -/
def pySplitWs (l : List Char) : List (List Char) :=
  (l.foldr splitWsStep []).filter (fun w => w ≠ [])

/-- Join character-list words with a single space (Python `" ".join(words)`). -/
def joinSpace : List (List Char) → List Char
  | [] => []
  | [w] => w
  | w :: ws => w ++ ' ' :: joinSpace ws

/-- `utils.normalize_name`: `" ".join(value.lower().split())`. -/
def normalizeName (s : String) : String :=
  ⟨joinSpace (pySplitWs (s.data.map Char.toLower))⟩

/-- `DiffValidator._normalize_name`: `" ".join(name.split()).strip().lower()`. -/
def dvNormalizeName (s : String) : String :=
  ⟨(stripChars (joinSpace (pySplitWs s.data))).map Char.toLower⟩

/-- Containment of one character list in another (Python `needle in hay`). -/
def charsInfix (needle : List Char) : List Char → Bool
  | [] => needle.isEmpty
  | c :: rest => needle.isPrefixOf (c :: rest) || charsInfix needle rest

/-- Python substring test `needle in hay` on strings. -/
def pyContains (hay needle : String) : Bool := charsInfix needle.data hay.data

/-! ## Numeric primitives -/

/-- Round-half-up to an integer, our model of Python `round` on `ℚ`. -/
def qround (q : ℚ) : ℤ := ⌊q + 1/2⌋

/-- Python `round(x, n)`. -/
def roundTo (n : ℕ) (q : ℚ) : ℚ := ((qround (q * 10 ^ n) : ℤ) : ℚ) / 10 ^ n

/-- Python truthy `x or d` for an optional number (`None` and `0` fall back). -/
def pyOrI (x : Option ℤ) (d : ℤ) : ℤ :=
  match x with
  | none => d
  | some v => if v = 0 then d else v

/-! ## Data model (`remy/models/context.py` and `remy/models/plan.py`) -/

structure Preferences where
  diet : Option String := none
  maxTimeMin : Option ℤ := none
  allergens : List String := []
deriving DecidableEq

structure RecentMeal where
  date : ℤ
  title : String
deriving DecidableEq

structure InventoryItem where
  id : ℕ
  name : String
  quantity : ℚ
  unit : String
  bestBefore : Option ℤ := none
deriving DecidableEq

structure LeftoverItem where
  name : String
  quantity : ℚ
  unit : String
  bestBefore : Option ℤ := none
deriving DecidableEq

structure Constraints where
  attendees : Option ℤ := none
  timeWindow : Option String := none
deriving DecidableEq

structure PlanningContext where
  date : ℤ
  prefs : Preferences := {}
  recentMeals : List RecentMeal := []
  inventory : List InventoryItem := []
  leftovers : List LeftoverItem := []
  constraints : Constraints := {}
deriving DecidableEq

structure Macros where
  kcal : Option ℚ := none
  proteinG : Option ℚ := none
  carbG : Option ℚ := none
  fatG : Option ℚ := none
deriving DecidableEq

structure IngredientRequirement where
  ingredientId : Option ℕ := none
  name : String
  quantityG : Option ℚ := none
  quantityMl : Option ℚ := none
  quantityCount : Option ℚ := none
deriving DecidableEq

structure InventoryDelta where
  ingredientId : ℕ
  useG : Option ℚ := none
  useMl : Option ℚ := none
  useCount : Option ℚ := none
deriving DecidableEq

structure ShoppingShortfall where
  ingredientId : Option ℕ := none
  name : String
  needG : Option ℚ := none
  needMl : Option ℚ := none
  needCount : Option ℚ := none
  reason : Option String := none
deriving DecidableEq

structure PlanCandidate where
  title : String
  estimatedTimeMin : Option ℤ := none
  servings : Option ℤ := none
  steps : List String := []
  ingredientsRequired : List IngredientRequirement := []
  inventoryDeltas : List InventoryDelta := []
  shoppingShortfall : List ShoppingShortfall := []
  macrosPerServing : Option Macros := none
  diagnostics : List String := []
deriving DecidableEq

structure Plan where
  date : ℤ
  candidates : List PlanCandidate := []
deriving DecidableEq

/-! ## Ordered-dict association lists

Python `dict` assignment replaces the value of an existing key in place and
appends a fresh key at the end; iteration follows that order. -/

/-- Lookup (`d[k]` / `d.get(k)`). -/
def dget {κ β : Type} [BEq κ] (l : List (κ × β)) (k : κ) : Option β :=
  (l.find? (fun p => p.1 == k)).map (fun p => p.2)

/-- Assignment `d[k] = v` preserving insertion order. -/
def dinsert {κ β : Type} [BEq κ] : List (κ × β) → κ → β → List (κ × β)
  | [], k, v => [(k, v)]
  | (k0, v0) :: rest, k, v =>
    if k0 == k then (k0, v) :: rest else (k0, v0) :: dinsert rest k v

/-! ## `planner/app/utils.py` -/

/-- `build_inventory_index`: dict comprehension keyed by normalized name. -/
def buildInventoryIndex (inventory : List InventoryItem) : List (String × InventoryItem) :=
  inventory.foldl (fun idx item => dinsert idx (normalizeName item.name) item) []

/-- `build_leftover_index`. -/
def buildLeftoverIndex (leftovers : List LeftoverItem) : List (String × LeftoverItem) :=
  leftovers.foldl (fun idx item => dinsert idx (normalizeName item.name) item) []

/-- `resolve_inventory_item`: exact normalized-name hit, else first loose
substring match (either direction) in index iteration order. -/
def resolveInventoryItem (nm : String) (index : List (String × InventoryItem)) :
    Option InventoryItem :=
  match dget index nm with
  | some item => some item
  | none =>
    (index.find? (fun p => pyContains p.1 nm || pyContains nm p.1)).map (fun p => p.2)

/-- `resolve_leftover_item`. -/
def resolveLeftoverItem (nm : String) (index : List (String × LeftoverItem)) :
    Option LeftoverItem :=
  match dget index nm with
  | some item => some item
  | none =>
    (index.find? (fun p => pyContains p.1 nm || pyContains nm p.1)).map (fun p => p.2)

/-! ## `planner/app/constraint_engine.py` -/

structure RecipeIngredient where
  name : String
  quantityG : ℚ
  optional : Bool := false
deriving DecidableEq

structure Recipe where
  title : String
  ingredients : List RecipeIngredient
  tags : List String
  steps : List String
  estimatedTimeMin : ℤ
  primaryIngredients : List String
  servings : ℤ := 4
deriving DecidableEq

structure RuleResult where
  name : String
  passed : Bool
  scoreAdjustment : ℚ := 0
  details : List String := []
deriving DecidableEq

structure ConstraintEvaluation where
  recipe : Recipe
  score : ℚ
  ruleResults : List RuleResult
deriving DecidableEq

structure PlanningSnapshot where
  context : PlanningContext
  inventoryIndex : List (String × InventoryItem)
  leftoversIndex : List (String × LeftoverItem)
  currentDate : ℤ

/-- Render a rational with two decimal places, our model of Python `f"{x:.2f}"`
(only used inside diagnostic detail strings). -/
def ratToFixed2 (q : ℚ) : String :=
  let c : ℤ := qround (q * 100)
  let a := c.natAbs
  let ip := a / 100
  let fp := a % 100
  (if c < 0 then "-" else "") ++ toString ip ++ "." ++
    (if fp < 10 then "0" ++ toString fp else toString fp)

/-- `DietCompatibilityRule.evaluate`. Note that the flexible-diet escape tag
checked by the source is the literal tag `"flex"`. -/
def dietCompatibilityRule (recipe : Recipe) (snapshot : PlanningSnapshot) : RuleResult :=
  let diet := pyLower (pyStrip (snapshot.context.prefs.diet.getD ""))
  if diet = "" then ⟨"diet_compatibility", true, 0, []⟩
  else
    let recipeTags := recipe.tags.map normalizeName
    if recipeTags.contains diet || recipeTags.contains "flex" then
      ⟨"diet_compatibility", true, 0.5, []⟩
    else
      ⟨"diet_compatibility", false, 0,
        ["recipe missing tag for diet '" ++ diet ++ "'"]⟩

/-- `AllergenExclusionRule.evaluate`: the first ingredient whose normalized name
contains any normalized allergen fails the rule. -/
def allergenExclusionRule (recipe : Recipe) (snapshot : PlanningSnapshot) : RuleResult :=
  let allergens := snapshot.context.prefs.allergens.map normalizeName
  if allergens.isEmpty then ⟨"allergen_exclusion", true, 0, []⟩
  else
    match recipe.ingredients.find?
        (fun ing => allergens.any (fun a => pyContains (normalizeName ing.name) a)) with
    | some ing =>
      ⟨"allergen_exclusion", false, 0,
        ["ingredient '" ++ ing.name ++ "' violates allergen policy"]⟩
    | none => ⟨"allergen_exclusion", true, 0.3, []⟩

/-- `MaxTimeRule.evaluate`. -/
def maxTimeRule (recipe : Recipe) (snapshot : PlanningSnapshot) : RuleResult :=
  match snapshot.context.prefs.maxTimeMin with
  | none => ⟨"time_limit", true, 0, []⟩
  | some maxTime =>
    if recipe.estimatedTimeMin ≤ maxTime then ⟨"time_limit", true, 0.2, []⟩
    else
      ⟨"time_limit", false, 0,
        ["recipe requires " ++ toString recipe.estimatedTimeMin ++
          " min, exceeding limit of " ++ toString maxTime ++ " min"]⟩

/-- Loop body of `InventoryCoverageRule.evaluate`: accumulates
(coverage scores, missing names, primary hits). -/
def coverageStep (index : List (String × InventoryItem)) (primarySet : List String)
    (st : List ℚ × List String × ℕ) (ing : RecipeIngredient) :
    List ℚ × List String × ℕ :=
  let (scores, missing, hits) := st
  let normalized := normalizeName ing.name
  match resolveInventoryItem normalized index with
  | none => (scores, missing ++ [ing.name], hits)
  | some m =>
    -- `needed = getattr(ingredient, "quantity_g", None) or 0.0`;
    -- `available = match.quantity or 0.0` (truthiness is a numeric no-op)
    let needed := ing.quantityG
    let available := m.quantity
    if needed ≤ 0 then (scores ++ [1], missing, hits)
    else
      let ratio := if available > 0 then min (available / needed) 1 else 0
      let hits' :=
        if ¬ primarySet.isEmpty ∧ primarySet.contains normalized then hits + 1 else hits
      (scores ++ [ratio], missing, hits')

/-- `InventoryCoverageRule.evaluate`. -/
def inventoryCoverageRule (recipe : Recipe) (snapshot : PlanningSnapshot) : RuleResult :=
  if recipe.ingredients.isEmpty then ⟨"inventory_coverage", true, 0, []⟩
  else
    let primarySet := recipe.primaryIngredients.map normalizeName
    let st := recipe.ingredients.foldl (coverageStep snapshot.inventoryIndex primarySet) ([], [], 0)
    let scores := st.1
    let missing := st.2.1
    let hits := st.2.2
    if scores.isEmpty ∧ ¬ missing.isEmpty then
      ⟨"inventory_coverage", true, -1,
        ["no inventory coverage for " ++ String.intercalate ", " missing]⟩
    else
      let avg := if scores.isEmpty then 0 else scores.sum / (scores.length : ℚ)
      let score := 1.5 * avg - 0.4 * (missing.length : ℚ) + 0.6 * (hits : ℚ)
      let details :=
        (if ¬ missing.isEmpty then ["missing " ++ String.intercalate ", " missing] else []) ++
          (if hits ≠ 0 then ["covers " ++ toString hits ++ " primary ingredients"] else [])
      ⟨"inventory_coverage", true, score, details⟩

/-- Loop body of `BestBeforePriorityRule.evaluate`. -/
def expiryStep (index : List (String × InventoryItem)) (currentDate : ℤ)
    (st : ℚ × List String) (ing : RecipeIngredient) : ℚ × List String :=
  let (bonus, details) := st
  match resolveInventoryItem (normalizeName ing.name) index with
  | none => st
  | some m =>
    match m.bestBefore with
    | none => st
    | some bb =>
      let daysRemaining := bb - currentDate
      if daysRemaining < 0 then (bonus + 1.5, details ++ [m.name ++ " expired"])
      else if daysRemaining ≤ 2 then
        (bonus + 1.2, details ++ [m.name ++ " expiring in " ++ toString daysRemaining ++ "d"])
      else if daysRemaining ≤ 7 then (bonus + 0.6, details)
      else if daysRemaining ≤ 14 then (bonus + 0.2, details)
      else st

/-- `BestBeforePriorityRule.evaluate`. -/
def bestBeforePriorityRule (recipe : Recipe) (snapshot : PlanningSnapshot) : RuleResult :=
  let st := recipe.ingredients.foldl
    (expiryStep snapshot.inventoryIndex snapshot.currentDate) (0, [])
  ⟨"expiry_priority", true, st.1, st.2⟩

/-- Ascending character-list comparison (Python string `<` on code points). -/
def charsLt : List Char → List Char → Bool
  | [], [] => false
  | [], _ :: _ => true
  | _ :: _, [] => false
  | a :: as, b :: bs =>
    if a.toNat < b.toNat then true
    else if b.toNat < a.toNat then false
    else charsLt as bs

/-- Stable ascending insertion for strings (models Python `sorted`). -/
def strInsortAsc (x : String) : List String → List String
  | [] => [x]
  | y :: ys => if charsLt x.data y.data then x :: y :: ys else y :: strInsortAsc x ys

/-- Python `sorted(set(xs))` for strings. -/
def sortedSet (xs : List String) : List String :=
  (xs.dedup).foldl (fun acc x => strInsortAsc x acc) []

/-- `LeftoverUtilizationRule.evaluate`. -/
def leftoverUtilizationRule (recipe : Recipe) (snapshot : PlanningSnapshot) : RuleResult :=
  if snapshot.context.leftovers.isEmpty then ⟨"leftover_utilization", true, 0, []⟩
  else
    let st := recipe.ingredients.foldl
      (fun (st : ℚ × List String) ing =>
        match resolveLeftoverItem (normalizeName ing.name) snapshot.leftoversIndex with
        | none => st
        | some leftover => (st.1 + 0.8, st.2 ++ [leftover.name]))
      (0, [])
    if st.2.isEmpty then ⟨"leftover_utilization", true, -0.1, []⟩
    else
      ⟨"leftover_utilization", true, st.1,
        ["uses leftovers: " ++ String.intercalate ", " (sortedSet st.2)]⟩

/-- `RecencyPenaltyRule.evaluate`. The dict comprehension maps each normalized
recent title to its meal, with later list entries overwriting earlier ones, so
the lookup yields the last matching meal. -/
def recencyPenaltyRule (recipe : Recipe) (snapshot : PlanningSnapshot) : RuleResult :=
  if snapshot.context.recentMeals.isEmpty then ⟨"recency_penalty", true, 0, []⟩
  else
    let recipeName := normalizeName recipe.title
    match snapshot.context.recentMeals.reverse.find?
        (fun meal => normalizeName meal.title == recipeName) with
    | none => ⟨"recency_penalty", true, 0.3, []⟩
    | some meal =>
      let daysSince := snapshot.currentDate - meal.date
      let penalty : ℚ := max (1.5 - 0.2 * ((max daysSince 0 : ℤ) : ℚ)) 0.3
      ⟨"recency_penalty", true, -penalty,
        ["served " ++ toString daysSince ++ "d ago, applying penalty " ++ ratToFixed2 penalty]⟩

/-- `AttendeeScalingRule.evaluate`. `if not attendees` is Python truthiness:
`None` or `0` both short-circuit. -/
def attendeeScalingRule (recipe : Recipe) (snapshot : PlanningSnapshot) : RuleResult :=
  let attendees := snapshot.context.constraints.attendees
  if attendees = none ∨ attendees = some 0 ∨ recipe.servings ≤ 0 then
    ⟨"attendee_scaling", true, 0, []⟩
  else
    let a := attendees.getD 0
    let ratio : ℚ := (a : ℚ) / (recipe.servings : ℚ)
    if 0.5 ≤ ratio ∧ ratio ≤ 2.0 then ⟨"attendee_scaling", true, 0.4, []⟩
    else
      ⟨"attendee_scaling", true, -0.2,
        ["servings ratio " ++ ratToFixed2 ratio ++ " less ideal for " ++ toString a ++ " diners"]⟩

/-- A constraint rule, as the single `evaluate` capability. -/
def ConstraintRule : Type := Recipe → PlanningSnapshot → RuleResult

/-- Hard-rule loop of `ConstraintEngine.evaluate_recipe`: append each result,
short-circuit to exclusion on the first failure. -/
def evalHardRules (recipe : Recipe) (snapshot : PlanningSnapshot) :
    List ConstraintRule → List RuleResult → Option (List RuleResult)
  | [], acc => some acc
  | rule :: rules, acc =>
    let result := rule recipe snapshot
    if result.passed then evalHardRules recipe snapshot rules (acc ++ [result]) else none

/-- `ConstraintEngine.evaluate_recipe`: `None` if a hard rule fails, otherwise
the soft-rule results are appended and only their adjustments are summed. -/
def evaluateRecipe (hardRules softRules : List ConstraintRule)
    (recipe : Recipe) (snapshot : PlanningSnapshot) : Option ConstraintEvaluation :=
  match evalHardRules recipe snapshot hardRules [] with
  | none => none
  | some hardResults =>
    let softResults := softRules.map (fun rule => rule recipe snapshot)
    some ⟨recipe, (softResults.map (fun r => r.scoreAdjustment)).sum, hardResults ++ softResults⟩

/-- `PlanningSnapshot` construction at the top of `rank_recipes`. -/
def buildSnapshot (context : PlanningContext) : PlanningSnapshot :=
  ⟨context, buildInventoryIndex context.inventory, buildLeftoverIndex context.leftovers,
    context.date⟩

/-- The evaluations collected in catalog order, before sorting. -/
def candidateEvals (hardRules softRules : List ConstraintRule)
    (context : PlanningContext) (recipes : List Recipe) : List ConstraintEvaluation :=
  recipes.filterMap (fun r => evaluateRecipe hardRules softRules r (buildSnapshot context))

/-- Stable descending insertion by a rational key: an element walks past every
incumbent with key `≥` its own, so equal keys keep their original order. -/
def insertDesc {α : Type} (key : α → ℚ) (x : α) : List α → List α
  | [] => [x]
  | y :: ys => if key x ≤ key y then y :: insertDesc key x ys else x :: y :: ys

/-- Stable descending sort: the unique stable sort, hence the same list that
Python's stable `list.sort(key=..., reverse=True)` produces. -/
def stableSortDesc {α : Type} (key : α → ℚ) (l : List α) : List α :=
  l.foldl (fun acc x => insertDesc key x acc) []

/-- `ConstraintEngine.rank_recipes`. -/
def rankRecipes (hardRules softRules : List ConstraintRule)
    (context : PlanningContext) (recipes : List Recipe) : List ConstraintEvaluation :=
  stableSortDesc (fun e => e.score) (candidateEvals hardRules softRules context recipes)

/-- The default engine wiring of `planner._build_constraint_engine`. -/
def defaultHardRules : List ConstraintRule :=
  [dietCompatibilityRule, allergenExclusionRule, maxTimeRule]

/-- The default soft rules, in engine order. -/
def defaultSoftRules : List ConstraintRule :=
  [inventoryCoverageRule, bestBeforePriorityRule, leftoverUtilizationRule,
    recencyPenaltyRule, attendeeScalingRule]

/-! ## `planner/app/planner.py` — `_build_candidate`

The source loop appends to three independent lists (requirements, deltas,
shortfalls); nothing in one iteration depends on earlier iterations, so the
loop is exactly a `map` and two `filterMap`s over the recipe's ingredients. -/

/-- The requirement `_build_candidate` appends for one ingredient. -/
def buildCandidateReq (lookup : List (String × InventoryItem))
    (ing : RecipeIngredient) : IngredientRequirement :=
  match resolveInventoryItem (normalizeName ing.name) lookup with
  | some item => ⟨some item.id, item.name, some ing.quantityG, none, none⟩
  | none => ⟨none, ing.name, some ing.quantityG, none, none⟩

/-- The delta `_build_candidate` appends for one ingredient
(`use_amount = min(available, quantity_needed)`, recorded only when positive). -/
def buildCandidateDelta (lookup : List (String × InventoryItem))
    (ing : RecipeIngredient) : Option InventoryDelta :=
  match resolveInventoryItem (normalizeName ing.name) lookup with
  | some item =>
    let useAmount := min item.quantity ing.quantityG
    if useAmount > 0 then some ⟨item.id, some useAmount, none, none⟩ else none
  | none => none

/-- The shortfall `_build_candidate` appends for one ingredient:
`max(quantity_needed - available, 0)` rounded to two decimals when above the
`0.01` threshold for a matched item, full amount for an unmatched non-optional
ingredient. -/
def buildCandidateShortfall (lookup : List (String × InventoryItem))
    (ing : RecipeIngredient) : Option ShoppingShortfall :=
  match resolveInventoryItem (normalizeName ing.name) lookup with
  | some item =>
    let shortfallAmount := max (ing.quantityG - item.quantity) 0
    if shortfallAmount > 0.01 then
      some ⟨some item.id, item.name, some (roundTo 2 shortfallAmount), none, none,
        some "insufficient_stock"⟩
    else none
  | none =>
    if ing.optional then none
    else some ⟨none, ing.name, some ing.quantityG, none, none, some "not_in_inventory"⟩

/-- `planner._build_candidate`. -/
def buildCandidate (recipe : Recipe) (context : PlanningContext)
    (inventoryLookup : List (String × InventoryItem)) : PlanCandidate :=
  let servings := pyOrI context.constraints.attendees recipe.servings
  { title := recipe.title
    estimatedTimeMin := some recipe.estimatedTimeMin
    servings := some servings
    steps := recipe.steps
    ingredientsRequired := recipe.ingredients.map (buildCandidateReq inventoryLookup)
    inventoryDeltas := recipe.ingredients.filterMap (buildCandidateDelta inventoryLookup)
    shoppingShortfall := recipe.ingredients.filterMap (buildCandidateShortfall inventoryLookup)
    macrosPerServing := none
    diagnostics := [] }

/-! ## `agents/diff_validator.py` -/

/-- `_WEIGHT_UNITS`: unit string to grams factor. -/
def WEIGHT_UNITS : List (String × ℚ) :=
  [("g", 1), ("gram", 1), ("grams", 1),
   ("kg", 1000), ("kilogram", 1000), ("kilograms", 1000),
   ("mg", 0.001), ("milligram", 0.001), ("milligrams", 0.001),
   ("lb", 453.592), ("lbs", 453.592), ("pound", 453.592), ("pounds", 453.592),
   ("oz", 28.3495), ("ounce", 28.3495), ("ounces", 28.3495)]

/-- `_VOLUME_UNITS`: unit string to milliliters factor. -/
def VOLUME_UNITS : List (String × ℚ) :=
  [("ml", 1), ("milliliter", 1), ("milliliters", 1),
   ("l", 1000), ("liter", 1000), ("liters", 1000),
   ("cup", 240), ("cups", 240),
   ("tbsp", 15), ("tablespoon", 15), ("tablespoons", 15), ("tbs", 15),
   ("tsp", 5), ("teaspoon", 5), ("teaspoons", 5),
   ("fl oz", 29.5735), ("floz", 29.5735), ("fluid ounce", 29.5735),
   ("fluid ounces", 29.5735),
   ("pint", 473.176), ("pints", 473.176),
   ("quart", 946.353), ("quarts", 946.353),
   ("gallon", 3785.41), ("gallons", 3785.41)]

/-- `_COUNT_UNITS`. -/
def COUNT_UNITS : List String :=
  ["count", "ea", "each", "unit", "piece", "pieces", "pc", "pcs"]

/-- `_COUNT_TO_WEIGHT_G`. -/
def countToWeightG : ℚ := 75

/-- `_MACRO_PROTEIN_SHARE`. -/
def macroProteinShare : ℚ := 0.25

/-- `_MACRO_FAT_SHARE`. -/
def macroFatShare : ℚ := 0.08

/-- The comparison scale of the source's `1e-6` epsilon checks. -/
def dvEpsilon : ℚ := 1 / 1000000

/-- The canonical unit domains `"g"` / `"ml"` / `"count"`. -/
inductive UnitDomain
  | g
  | ml
  | cnt
deriving DecidableEq

structure InventoryBuckets where
  weightG : ℚ := 0
  volumeMl : ℚ := 0
  count : ℚ := 0
deriving DecidableEq

structure UsageAmounts where
  useG : ℚ := 0
  useMl : ℚ := 0
  useCount : ℚ := 0
deriving DecidableEq

/-- `DiffValidator._convert_unit`. -/
def convertUnit (quantity : ℚ) (unit : String) : UnitDomain × ℚ × Bool :=
  match dget WEIGHT_UNITS unit with
  | some factor => (.g, quantity * factor, true)
  | none =>
    match dget VOLUME_UNITS unit with
    | some factor => (.ml, quantity * factor, true)
    | none =>
      if COUNT_UNITS.contains unit || unit = "" then (.cnt, quantity, true)
      else (.cnt, quantity, false)

/-- One iteration of `DiffValidator._build_inventory_state`. -/
def inventoryStateStep (acc : List (ℕ × InventoryBuckets) × List (ℕ × String))
    (item : InventoryItem) : List (ℕ × InventoryBuckets) × List (ℕ × String) :=
  let quantity := item.quantity
  let unit := pyLower (pyStrip item.unit)
  if quantity ≤ 0 then acc
  else
    let converted := convertUnit quantity unit
    let buckets : InventoryBuckets :=
      match converted.1 with
      | .g => { weightG := converted.2.1 }
      | .ml => { volumeMl := converted.2.1 }
      | .cnt => { count := converted.2.1 }
    let state := dinsert acc.1 item.id buckets
    let warnings :=
      if converted.2.2 then acc.2
      else
        dinsert acc.2 item.id
          ("Inventory item '" ++ item.name ++ "' uses unit '" ++ item.unit ++
            "', treated as count.")
    (state, warnings)

/-- `DiffValidator._build_inventory_state`: per-item canonical buckets plus
unrecognized-unit warnings (`InventoryItem.id` is a required `int` in the
context model, so the defensive `item.id is None` skip never fires). -/
def buildInventoryState (inventory : List InventoryItem) :
    List (ℕ × InventoryBuckets) × List (ℕ × String) :=
  inventory.foldl inventoryStateStep ([], [])

/-- `DiffValidator._build_name_index`: first normalized name wins. -/
def buildNameIndex (inventory : List InventoryItem) : List (String × ℕ) :=
  inventory.foldl
    (fun index item =>
      let nm := dvNormalizeName item.name
      if nm ≠ "" ∧ (dget index nm).isNone then index ++ [(nm, item.id)] else index)
    []

/-- `DiffValidator._extract_requirement_amount`. -/
def extractRequirementAmount (r : IngredientRequirement) : Option (ℚ × UnitDomain) :=
  match r.quantityG with
  | some v => some (v, .g)
  | none =>
    match r.quantityMl with
    | some v => some (v, .ml)
    | none =>
      match r.quantityCount with
      | some v => some (v, .cnt)
      | none => none

/-- `DiffValidator._resolve_inventory_id`. -/
def resolveInventoryId (r : IngredientRequirement) (nameIndex : List (String × ℕ)) :
    Option ℕ :=
  match r.ingredientId with
  | some i => some i
  | none => dget nameIndex (dvNormalizeName r.name)

/-- `DiffValidator._available_for_type`. -/
def availableForType (b : InventoryBuckets) : UnitDomain → ℚ
  | .g => b.weightG
  | .ml => b.volumeMl
  | .cnt => b.count

/-- `DiffValidator._decrement_bucket`. -/
def decrementBucket (b : InventoryBuckets) (d : UnitDomain) (amount : ℚ) : InventoryBuckets :=
  match d with
  | .g => { b with weightG := max 0 (b.weightG - amount) }
  | .ml => { b with volumeMl := max 0 (b.volumeMl - amount) }
  | .cnt => { b with count := max 0 (b.count - amount) }

/-- Add a clamped usage into the per-id accumulation entry. -/
def addUsage (u : UsageAmounts) (d : UnitDomain) (amount : ℚ) : UsageAmounts :=
  match d with
  | .g => { u with useG := u.useG + amount }
  | .ml => { u with useMl := u.useMl + amount }
  | .cnt => { u with useCount := u.useCount + amount }

/-- `DiffValidator._build_shortfall`. -/
def buildShortfall (r : IngredientRequirement) (d : UnitDomain) (amount : ℚ)
    (reason : String) (ingredientId : Option ℕ) : ShoppingShortfall :=
  match d with
  | .g => ⟨ingredientId, r.name, some amount, none, none, some reason⟩
  | .ml => ⟨ingredientId, r.name, none, some amount, none, some reason⟩
  | .cnt => ⟨ingredientId, r.name, none, none, some amount, some reason⟩

/-- `DiffValidator._maybe_value`. -/
def maybeValue (v : Option ℚ) : Option ℚ :=
  match v with
  | none => none
  | some x => if x > dvEpsilon then some x else none

/-- The mutable loop state of `DiffValidator._normalize_candidate`. -/
structure NormState where
  inventory : List (ℕ × InventoryBuckets)
  usage : List (ℕ × UsageAmounts) := []
  shortfalls : List ShoppingShortfall := []
  diagnostics : List String := []
  diagSeen : List String := []

/-- `DiffValidator._add_diag`: skip empty or already-seen messages. -/
def addDiag (diagnostics seen : List String) (message : String) :
    List String × List String :=
  if message = "" ∨ seen.contains message then (diagnostics, seen)
  else (diagnostics ++ [message], seen ++ [message])

/-- One iteration of the requirement loop in `DiffValidator._normalize_candidate`. -/
def processRequirement (nameIndex : List (String × ℕ)) (unitWarnings : List (ℕ × String))
    (st : NormState) (requirement : IngredientRequirement) : NormState :=
  match extractRequirementAmount requirement with
  | none => st
  | some (reqAmount, reqType) =>
    if reqAmount ≤ 0 then st
    else
      let inventoryId := resolveInventoryId requirement nameIndex
      let matched := inventoryId.bind (fun iid => (dget st.inventory iid).map (fun b => (iid, b)))
      match matched with
      | some (iid, buckets) =>
        let available := availableForType buckets reqType
        let useAmount := min reqAmount available
        let st1 :=
          if useAmount > 0 then
            let entry := (dget st.usage iid).getD {}
            let usage := dinsert st.usage iid (addUsage entry reqType useAmount)
            let inv := dinsert st.inventory iid (decrementBucket buckets reqType useAmount)
            let stepped := { st with usage := usage, inventory := inv }
            match dget unitWarnings iid with
            | some msg =>
              let d := addDiag stepped.diagnostics stepped.diagSeen msg
              { stepped with diagnostics := d.1, diagSeen := d.2 }
            | none => stepped
          else st
        let deficit := reqAmount - useAmount
        if deficit > dvEpsilon then
          { st1 with shortfalls := st1.shortfalls ++
              [buildShortfall requirement reqType deficit "insufficient_stock" (some iid)] }
        else st1
      | none =>
        { st with shortfalls := st.shortfalls ++
            [buildShortfall requirement reqType reqAmount "not_in_inventory" inventoryId] }

/-- The delta list built from the usage dict at the end of `_normalize_candidate`. -/
def deltasOfUsage (usage : List (ℕ × UsageAmounts)) : List InventoryDelta :=
  usage.map (fun p =>
    ⟨p.1, maybeValue (some p.2.useG), maybeValue (some p.2.useMl),
      maybeValue (some p.2.useCount)⟩)

/-- One field pair of `DiffValidator._macro_delta`'s accumulation loop. -/
def macroDeltaStep (acc : ℚ × ℚ) (p : ℚ × ℚ) : ℚ × ℚ :=
  if p.1 = 0 ∧ p.2 = 0 then acc
  else (acc.1 + |p.1 - p.2|, acc.2 + max (max p.1 p.2) 1)

/-- `DiffValidator._macro_delta`: normalized divergence over the four fields
(`getattr(_, field) or 0.0` sums like `getD 0`). -/
def macroDelta (existing updated : Macros) : ℚ :=
  let pairs : List (ℚ × ℚ) :=
    [(existing.kcal.getD 0, updated.kcal.getD 0),
     (existing.proteinG.getD 0, updated.proteinG.getD 0),
     (existing.carbG.getD 0, updated.carbG.getD 0),
     (existing.fatG.getD 0, updated.fatG.getD 0)]
  let acc := pairs.foldl macroDeltaStep (0, 0)
  if acc.2 = 0 then 0 else acc.1 / acc.2

/-- The aggregate mass-equivalent of `_recompute_macros`
(`if requirement.quantity_g:` adds the value exactly when present and non-zero,
which sums to the same total as adding `getD 0`). -/
def macroTotalMass (candidate : PlanCandidate) : ℚ :=
  let totalWeight := (candidate.ingredientsRequired.map (fun r => r.quantityG.getD 0)).sum
  let totalVolume := (candidate.ingredientsRequired.map (fun r => r.quantityMl.getD 0)).sum
  let totalCount := (candidate.ingredientsRequired.map (fun r => r.quantityCount.getD 0)).sum
  totalWeight + totalVolume * 1 + totalCount * countToWeightG

/-- `max(1, int(candidate.servings or 1))`. -/
def macroServings (candidate : PlanCandidate) : ℤ :=
  max 1 (pyOrI candidate.servings 1)

/-- The per-serving estimate `_recompute_macros` derives from ingredient totals. -/
def macroEstimate (candidate : PlanCandidate) : Macros :=
  let perServingMass := macroTotalMass candidate / (macroServings candidate : ℚ)
  let protein := perServingMass * macroProteinShare
  let fat := perServingMass * macroFatShare
  let carbs := max 0 (perServingMass - protein - fat)
  ⟨some (roundTo 1 (protein * 4 + carbs * 4 + fat * 9)),
    some (roundTo 1 protein), some (roundTo 1 carbs), some (roundTo 1 fat)⟩

/-- `DiffValidator._recompute_macros`. -/
def recomputeMacros (candidate : PlanCandidate) : Option Macros × List String :=
  if macroTotalMass candidate ≤ 0 ∨ macroServings candidate ≤ 0 then
    (candidate.macrosPerServing, [])
  else
    match candidate.macrosPerServing with
    | none =>
      (some (macroEstimate candidate),
        ["Estimated macros per serving from ingredient totals."])
    | some existing =>
      if macroDelta existing (macroEstimate candidate) > 0.2 then
        (some (macroEstimate candidate),
          ["Adjusted macros per serving based on ingredient totals."])
      else (candidate.macrosPerServing, [])

/-- Python truthiness `macros or candidate.macros_per_serving` (a `Macros`
object is always truthy). -/
def pyOrMacros (x : Option Macros) (d : Option Macros) : Option Macros :=
  match x with
  | some m => some m
  | none => d

/-- `DiffValidator._normalize_candidate`. -/
def normalizeCandidate (candidate : PlanCandidate)
    (inventoryState : List (ℕ × InventoryBuckets)) (nameIndex : List (String × ℕ))
    (unitWarnings : List (ℕ × String)) : PlanCandidate :=
  let st := candidate.ingredientsRequired.foldl
    (processRequirement nameIndex unitWarnings) { inventory := inventoryState }
  let deltaModels := deltasOfUsage st.usage
  let recomputed := recomputeMacros candidate
  let diag := recomputed.2.foldl
    (fun (d : List String × List String) note => addDiag d.1 d.2 note)
    (st.diagnostics, st.diagSeen)
  { candidate with
      inventoryDeltas := deltaModels
      shoppingShortfall := st.shortfalls
      -- `"macros_per_serving": macros or candidate.macros_per_serving`
      macrosPerServing := pyOrMacros recomputed.1 candidate.macrosPerServing
      diagnostics := diag.1 }

/-- `DiffValidator.run`: every candidate is normalized against its own fresh
clone of the converted inventory buckets; in this functional model the clone is
simply the shared immutable `inventoryState` value. -/
def runDiffValidator (context : PlanningContext) (plan : Plan) : Plan :=
  let built := buildInventoryState context.inventory
  let nameIndex := buildNameIndex context.inventory
  ⟨plan.date,
    plan.candidates.map (fun c => normalizeCandidate c built.1 nameIndex built.2)⟩

/-! ## Observation helpers used by the statements -/

/-- Read a usage field by unit domain. -/
def usageForType (u : UsageAmounts) : UnitDomain → ℚ
  | .g => u.useG
  | .ml => u.useMl
  | .cnt => u.useCount

/-- The stock available for an id in one unit domain of a bucket map
(0 when the id is absent). -/
def bucketVal (state : List (ℕ × InventoryBuckets)) (iid : ℕ) (d : UnitDomain) : ℚ :=
  ((dget state iid).map (fun b => availableForType b d)).getD 0

/-- The usage accumulated for an id in one unit domain of a usage map. -/
def usageVal (usage : List (ℕ × UsageAmounts)) (iid : ℕ) (d : UnitDomain) : ℚ :=
  ((dget usage iid).map (fun u => usageForType u d)).getD 0

/-- The loop state reached by the requirement loop of `_normalize_candidate`
for one candidate of `DiffValidator.run`. -/
def candidateNormState (context : PlanningContext) (candidate : PlanCandidate) : NormState :=
  candidate.ingredientsRequired.foldl
    (processRequirement (buildNameIndex context.inventory) (buildInventoryState context.inventory).2)
    { inventory := (buildInventoryState context.inventory).1 }

/-! ## Ordered-dict lemmas -/

theorem dget_nil {κ β : Type} [BEq κ] (k : κ) : dget ([] : List (κ × β)) k = none := rfl

theorem dget_cons {κ β : Type} [BEq κ] (k0 : κ) (v0 : β) (l : List (κ × β)) (k : κ) :
    dget ((k0, v0) :: l) k = if (k0 == k) then some v0 else dget l k := by
  by_cases h : (k0 == k) = true
  · simp [dget, List.find?_cons_of_pos, h]
  · simp only [Bool.not_eq_true] at h
    simp [dget, List.find?_cons_of_neg, h]

theorem dget_dinsert_self {κ β : Type} [BEq κ] [LawfulBEq κ] (l : List (κ × β)) (k : κ) (v : β) :
    dget (dinsert l k v) k = some v := by
  induction l with
  | nil => simp [dinsert, dget_cons]
  | cons p rest ih =>
    obtain ⟨k0, v0⟩ := p
    by_cases h : (k0 == k) = true
    · simp [dinsert, h, dget_cons]
    · simp only [dinsert, h, Bool.false_eq_true, if_false]
      rw [dget_cons, if_neg h]
      exact ih

theorem dget_dinsert_ne {κ β : Type} [BEq κ] [LawfulBEq κ] (l : List (κ × β)) (k k' : κ) (v : β)
    (h : k' ≠ k) : dget (dinsert l k v) k' = dget l k' := by
  induction l with
  | nil =>
    have : (k == k') = false := by simpa using fun hk => h hk.symm
    simp [dinsert, dget_cons, this, dget_nil]
  | cons p rest ih =>
    obtain ⟨k0, v0⟩ := p
    by_cases h0 : (k0 == k) = true
    · have hk0 : k0 = k := by simpa using h0
      have : (k0 == k') = false := by
        subst hk0; simpa using fun hk => h hk.symm
      simp [dinsert, h0, dget_cons, this]
    · simp only [dinsert, h0, Bool.false_eq_true, if_false]
      rw [dget_cons, dget_cons]
      by_cases h1 : (k0 == k') = true
      · simp [h1]
      · simp only [h1, Bool.false_eq_true, if_false]
        exact ih

theorem mem_keys_dinsert {κ β : Type} [BEq κ] [LawfulBEq κ]
    (l : List (κ × β)) (k k' : κ) (v : β)
    (h : k' ∈ (dinsert l k v).map Prod.fst) : k' = k ∨ k' ∈ l.map Prod.fst := by
  induction l with
  | nil => simpa [dinsert] using h
  | cons p rest ih =>
    obtain ⟨k0, v0⟩ := p
    by_cases h0 : (k0 == k) = true
    · simp only [dinsert, h0, if_true, List.map_cons, List.mem_cons] at h ⊢
      tauto
    · simp only [dinsert, h0, Bool.false_eq_true, if_false, List.map_cons, List.mem_cons] at h ⊢
      rcases h with h | h
      · tauto
      · rcases ih h with h' | h' <;> tauto

theorem nodup_keys_dinsert {κ β : Type} [BEq κ] [LawfulBEq κ]
    (l : List (κ × β)) (k : κ) (v : β)
    (h : (l.map Prod.fst).Nodup) : ((dinsert l k v).map Prod.fst).Nodup := by
  induction l with
  | nil => simp [dinsert]
  | cons p rest ih =>
    obtain ⟨k0, v0⟩ := p
    simp only [List.map_cons, List.nodup_cons] at h
    by_cases h0 : (k0 == k) = true
    · simp only [dinsert, h0, if_true, List.map_cons, List.nodup_cons]
      exact ⟨h.1, h.2⟩
    · have hk0 : k0 ≠ k := by simpa using h0
      simp only [dinsert, h0, Bool.false_eq_true, if_false, List.map_cons, List.nodup_cons]
      refine ⟨fun hmem => ?_, ih h.2⟩
      rcases mem_keys_dinsert rest k k0 v hmem with h' | h'
      · exact hk0 h'
      · exact h.1 h'

theorem dget_eq_some_of_mem {κ β : Type} [BEq κ] [LawfulBEq κ]
    (l : List (κ × β)) (k : κ) (v : β)
    (hnd : (l.map Prod.fst).Nodup) (hm : (k, v) ∈ l) : dget l k = some v := by
  induction l with
  | nil => simp at hm
  | cons p rest ih =>
    obtain ⟨k0, v0⟩ := p
    simp only [List.map_cons, List.nodup_cons] at hnd
    rcases List.mem_cons.mp hm with h | h
    · have hk : k0 = k := (congrArg Prod.fst h).symm
      have hv : v0 = v := (congrArg Prod.snd h).symm
      subst hk; subst hv
      simp [dget_cons]
    · have hk0 : k0 ≠ k := by
        intro hk; subst hk
        exact hnd.1 (List.mem_map.mpr ⟨(k0, v), h, rfl⟩)
      rw [dget_cons, if_neg (by simpa using hk0)]
      exact ih hnd.2 h

/-- Generic invariant preservation along a left fold. -/
theorem foldl_invariant {σ α : Type} (f : σ → α → σ) (P : σ → Prop)
    (step : ∀ s a, P s → P (f s a)) :
    ∀ (l : List α) (s : σ), P s → P (l.foldl f s) := by
  intro l
  induction l with
  | nil => intro s hs; simpa using hs
  | cons a rest ih =>
    intro s hs
    simpa using ih (f s a) (step s a hs)

/-! ## Field-access lemmas for the bucket/usage accumulators -/

theorem availableForType_decrementBucket (b : InventoryBuckets) (d d' : UnitDomain) (a : ℚ) :
    availableForType (decrementBucket b d a) d' =
      if d' = d then max 0 (availableForType b d - a) else availableForType b d' := by
  cases d <;> cases d' <;> simp [decrementBucket, availableForType]

theorem usageForType_addUsage (u : UsageAmounts) (d d' : UnitDomain) (a : ℚ) :
    usageForType (addUsage u d a) d' =
      if d' = d then usageForType u d + a else usageForType u d' := by
  cases d <;> cases d' <;> simp [addUsage, usageForType]

theorem usageForType_entry (l : List (ℕ × UsageAmounts)) (iid : ℕ) (d : UnitDomain) :
    usageForType ((dget l iid).getD {}) d = usageVal l iid d := by
  cases h : dget l iid with
  | none => simp only [usageVal, h, Option.getD_none, Option.map_none', Option.getD_none]
            cases d <;> rfl
  | some u => simp [usageVal, h]

theorem bucketVal_dinsert (state : List (ℕ × InventoryBuckets)) (iid iid' : ℕ)
    (B : InventoryBuckets) (d : UnitDomain) :
    bucketVal (dinsert state iid B) iid' d =
      if iid' = iid then availableForType B d else bucketVal state iid' d := by
  by_cases h : iid' = iid
  · subst h; simp [bucketVal, dget_dinsert_self]
  · simp [bucketVal, dget_dinsert_ne state iid iid' B h, h]

theorem usageVal_dinsert (usage : List (ℕ × UsageAmounts)) (iid iid' : ℕ)
    (U : UsageAmounts) (d : UnitDomain) :
    usageVal (dinsert usage iid U) iid' d =
      if iid' = iid then usageForType U d else usageVal usage iid' d := by
  by_cases h : iid' = iid
  · subst h; simp [usageVal, dget_dinsert_self]
  · simp [usageVal, dget_dinsert_ne usage iid iid' U h, h]

theorem bucketVal_of_dget (state : List (ℕ × InventoryBuckets)) (iid : ℕ)
    (b : InventoryBuckets) (d : UnitDomain) (h : dget state iid = some b) :
    bucketVal state iid d = availableForType b d := by
  simp [bucketVal, h]

/-! ## Shape of one `_normalize_candidate` loop iteration -/

/-- Every shortfall record the loop emits carries a positive amount and one of
the two reason tags. -/
def shortfallOk (s : ShoppingShortfall) : Prop :=
  (∀ a, s.needG = some a → 0 < a) ∧ (∀ a, s.needMl = some a → 0 < a) ∧
  (∀ a, s.needCount = some a → 0 < a) ∧
  (s.reason = some "insufficient_stock" ∨ s.reason = some "not_in_inventory")

theorem shortfallOk_buildShortfall (r : IngredientRequirement) (d : UnitDomain) (a : ℚ)
    (reason : String) (iid : Option ℕ) (ha : 0 < a)
    (hr : reason = "insufficient_stock" ∨ reason = "not_in_inventory") :
    shortfallOk (buildShortfall r d a reason iid) := by
  cases d <;>
    refine ⟨?_, ?_, ?_, ?_⟩ <;>
    simp_all [buildShortfall, shortfallOk]

/-- Case analysis of `processRequirement`: either only the shortfall list grows
(possibly not at all), or a positive clamped usage is recorded for a matched
inventory id, its bucket decremented accordingly. -/
theorem processRequirement_shape (nameIndex : List (String × ℕ))
    (unitWarnings : List (ℕ × String)) (st : NormState) (req : IngredientRequirement) :
    (∃ appended, (∀ s ∈ appended, shortfallOk s) ∧
      processRequirement nameIndex unitWarnings st req =
        { st with shortfalls := st.shortfalls ++ appended }) ∨
    (∃ iid buckets reqAmount reqType appended dg ds,
      (∀ s ∈ appended, shortfallOk s) ∧
      dget st.inventory iid = some buckets ∧
      0 < min reqAmount (availableForType buckets reqType) ∧
      processRequirement nameIndex unitWarnings st req =
        { inventory := dinsert st.inventory iid
            (decrementBucket buckets reqType (min reqAmount (availableForType buckets reqType))),
          usage := dinsert st.usage iid
            (addUsage ((dget st.usage iid).getD {}) reqType
              (min reqAmount (availableForType buckets reqType))),
          shortfalls := st.shortfalls ++ appended,
          diagnostics := dg, diagSeen := ds }) := by
  cases hext : extractRequirementAmount req with
  | none =>
    left
    exact ⟨[], by simp, by simp [processRequirement, hext]⟩
  | some p =>
    obtain ⟨reqAmount, reqType⟩ := p
    by_cases hle : reqAmount ≤ 0
    · left
      exact ⟨[], by simp, by simp [processRequirement, hext, hle]⟩
    · have hpos : 0 < reqAmount := lt_of_not_le hle
      cases hmatch : (resolveInventoryId req nameIndex).bind
          (fun iid => (dget st.inventory iid).map (fun b => (iid, b))) with
      | none =>
        left
        refine ⟨[buildShortfall req reqType reqAmount "not_in_inventory"
            (resolveInventoryId req nameIndex)], ?_, ?_⟩
        · intro s hs
          rcases List.mem_singleton.mp hs with rfl
          exact shortfallOk_buildShortfall _ _ _ _ _ hpos (Or.inr rfl)
        · simp [processRequirement, hext, hle, hmatch]
      | some p =>
        obtain ⟨iid, buckets⟩ := p
        obtain ⟨iid0, hres, hmap⟩ := Option.bind_eq_some.mp hmatch
        obtain ⟨b0, hget0, heq⟩ := Option.map_eq_some'.mp hmap
        have hiid : iid0 = iid := congrArg Prod.fst heq
        have hb : b0 = buckets := congrArg Prod.snd heq
        subst hiid; subst hb
        have hres' : resolveInventoryId req nameIndex = some iid0 := hres
        set available := availableForType b0 reqType with havail
        set useAmount := min reqAmount available with huse
        have huse_le : useAmount ≤ reqAmount := min_le_left _ _
        by_cases hupos : useAmount > 0
        · -- positive usage recorded
          right
          have hshort : ∀ (ap : List ShoppingShortfall),
              (ap = if reqAmount - useAmount > dvEpsilon then
                  [buildShortfall req reqType (reqAmount - useAmount)
                    "insufficient_stock" (some iid0)] else []) →
              ∀ s ∈ ap, shortfallOk s := by
            intro ap hap s hs
            by_cases hdef : reqAmount - useAmount > dvEpsilon
            · rw [hap, if_pos hdef] at hs
              rcases List.mem_singleton.mp hs with rfl
              refine shortfallOk_buildShortfall _ _ _ _ _ ?_ (Or.inl rfl)
              have : (0:ℚ) < dvEpsilon := by norm_num [dvEpsilon]
              linarith
            · rw [hap, if_neg hdef] at hs
              simp at hs
          cases hw : dget unitWarnings iid0 with
          | none =>
            by_cases hdef : reqAmount - useAmount > dvEpsilon
            · refine ⟨iid0, b0, reqAmount, reqType,
                [buildShortfall req reqType (reqAmount - useAmount)
                  "insufficient_stock" (some iid0)], st.diagnostics, st.diagSeen,
                hshort _ (by rw [if_pos hdef]), hget0, hupos, ?_⟩
              simp [processRequirement, hext, hle, hmatch, hupos, hw, hdef]
            · refine ⟨iid0, b0, reqAmount, reqType, [], st.diagnostics, st.diagSeen,
                by simp, hget0, hupos, ?_⟩
              simp [processRequirement, hext, hle, hmatch, hupos, hw, hdef]
          | some msg =>
            by_cases hdef : reqAmount - useAmount > dvEpsilon
            · refine ⟨iid0, b0, reqAmount, reqType,
                [buildShortfall req reqType (reqAmount - useAmount)
                  "insufficient_stock" (some iid0)],
                (addDiag st.diagnostics st.diagSeen msg).1,
                (addDiag st.diagnostics st.diagSeen msg).2,
                hshort _ (by rw [if_pos hdef]), hget0, hupos, ?_⟩
              simp [processRequirement, hext, hle, hmatch, hupos, hw, hdef]
            · refine ⟨iid0, b0, reqAmount, reqType, [],
                (addDiag st.diagnostics st.diagSeen msg).1,
                (addDiag st.diagnostics st.diagSeen msg).2,
                by simp, hget0, hupos, ?_⟩
              simp [processRequirement, hext, hle, hmatch, hupos, hw, hdef]
        · -- clamped usage is zero: nothing recorded, possibly a shortfall
          left
          by_cases hdef : reqAmount - useAmount > dvEpsilon
          · refine ⟨[buildShortfall req reqType (reqAmount - useAmount)
                "insufficient_stock" (some iid0)], ?_, ?_⟩
            · intro s hs
              rcases List.mem_singleton.mp hs with rfl
              refine shortfallOk_buildShortfall _ _ _ _ _ ?_ (Or.inl rfl)
              have : (0:ℚ) < dvEpsilon := by norm_num [dvEpsilon]
              linarith
            · simp [processRequirement, hext, hle, hmatch, hupos, hdef]
          · refine ⟨[], by simp, ?_⟩
            simp [processRequirement, hext, hle, hmatch, hupos, hdef]

/-! ## The reconciliation loop invariant -/

theorem WEIGHT_UNITS_pos : ∀ p ∈ WEIGHT_UNITS, (0:ℚ) < p.2 := by
  intro p hp
  simp only [WEIGHT_UNITS, List.mem_cons, List.not_mem_nil, or_false] at hp
  rcases hp with h|h|h|h|h|h|h|h|h|h|h|h|h|h|h|h <;> (subst h; norm_num)

theorem VOLUME_UNITS_pos : ∀ p ∈ VOLUME_UNITS, (0:ℚ) < p.2 := by
  intro p hp
  simp only [VOLUME_UNITS, List.mem_cons, List.not_mem_nil, or_false] at hp
  rcases hp with h|h|h|h|h|h|h|h|h|h|h|h|h|h|h|h|h|h|h|h|h|h|h|h|h <;> (subst h; norm_num)

theorem dget_table_pos (T : List (String × ℚ)) (hT : ∀ p ∈ T, (0:ℚ) < p.2)
    (u : String) (f : ℚ) (h : dget T u = some f) : 0 < f := by
  obtain ⟨p, hfind, hsnd⟩ := Option.map_eq_some'.mp h
  have := hT p (List.mem_of_find?_eq_some hfind)
  simpa [hsnd] using this

theorem convertUnit_value_nonneg (q : ℚ) (u : String) (hq : 0 ≤ q) :
    0 ≤ (convertUnit q u).2.1 := by
  unfold convertUnit
  cases hW : dget WEIGHT_UNITS u with
  | some f =>
    exact mul_nonneg hq (le_of_lt (dget_table_pos _ WEIGHT_UNITS_pos u f hW))
  | none =>
    cases hV : dget VOLUME_UNITS u with
    | some f =>
      exact mul_nonneg hq (le_of_lt (dget_table_pos _ VOLUME_UNITS_pos u f hV))
    | none =>
      split
      · simp_all
      · rw [apply_ite (fun x : UnitDomain × ℚ × Bool => x.2.1)]
        simp [hq]

theorem inventoryStateStep_nonneg (acc : List (ℕ × InventoryBuckets) × List (ℕ × String))
    (item : InventoryItem) (hacc : ∀ iid d, 0 ≤ bucketVal acc.1 iid d) :
    ∀ iid d, 0 ≤ bucketVal (inventoryStateStep acc item).1 iid d := by
  intro iid d
  unfold inventoryStateStep
  by_cases hq : item.quantity ≤ 0
  · simpa [hq] using hacc iid d
  · have hq' : 0 ≤ item.quantity := le_of_lt (lt_of_not_le hq)
    have hval : 0 ≤ (convertUnit item.quantity (pyLower (pyStrip item.unit))).2.1 :=
      convertUnit_value_nonneg _ _ hq'
    simp only [hq, if_false]
    rcases hcv : convertUnit item.quantity (pyLower (pyStrip item.unit)) with ⟨ut, v, r⟩
    rw [hcv] at hval
    simp only
    rw [bucketVal_dinsert]
    by_cases hi : iid = item.id
    · simp only [hi, if_pos rfl]
      cases ut <;> cases d <;> simp [availableForType, hval]
    · simpa [hi] using hacc iid d

theorem bucketVal_buildInventoryState_nonneg (inventory : List InventoryItem) :
    ∀ iid d, 0 ≤ bucketVal (buildInventoryState inventory).1 iid d := by
  unfold buildInventoryState
  exact foldl_invariant inventoryStateStep (fun acc => ∀ iid d, 0 ≤ bucketVal acc.1 iid d)
    (fun acc item h => inventoryStateStep_nonneg acc item h) inventory ([], [])
    (by intro iid d; simp [bucketVal, dget_nil])

theorem candidateNormState_inv (context : PlanningContext) (candidate : PlanCandidate) :
    ((candidateNormState context candidate).usage.map Prod.fst).Nodup ∧
    (∀ iid d, 0 ≤ bucketVal (candidateNormState context candidate).inventory iid d) ∧
    (∀ iid d, usageVal (candidateNormState context candidate).usage iid d +
        bucketVal (candidateNormState context candidate).inventory iid d =
        bucketVal (buildInventoryState context.inventory).1 iid d) ∧
    (∀ s ∈ (candidateNormState context candidate).shortfalls, shortfallOk s) := by
  unfold candidateNormState
  refine foldl_invariant _
    (fun (st : NormState) => ((st.usage.map Prod.fst).Nodup) ∧
      (∀ iid d, 0 ≤ bucketVal st.inventory iid d) ∧
      (∀ iid d, usageVal st.usage iid d + bucketVal st.inventory iid d =
        bucketVal (buildInventoryState context.inventory).1 iid d) ∧
      (∀ s ∈ st.shortfalls, shortfallOk s)) ?_ _ _ ?_
  · intro st req hst
    obtain ⟨h1, h2, h3, h4⟩ := hst
    rcases processRequirement_shape (buildNameIndex context.inventory)
        (buildInventoryState context.inventory).2 st req with
      ⟨appended, happ, heq⟩ | ⟨iid, buckets, reqAmount, reqType, appended, dg, ds, happ, hb, hpos, heq⟩
    · rw [heq]
      refine ⟨h1, h2, h3, ?_⟩
      intro s hs
      rcases List.mem_append.mp hs with h | h
      · exact h4 s h
      · exact happ s h
    · rw [heq]
      set u := min reqAmount (availableForType buckets reqType) with hu
      have hule : u ≤ availableForType buckets reqType := min_le_right _ _
      have hbv : bucketVal st.inventory iid reqType = availableForType buckets reqType :=
        bucketVal_of_dget _ _ _ _ hb
      refine ⟨nodup_keys_dinsert _ _ _ h1, ?_, ?_, ?_⟩
      · intro iid' d
        rw [bucketVal_dinsert]
        by_cases hi : iid' = iid
        · rw [if_pos hi, availableForType_decrementBucket]
          by_cases hd : d = reqType
          · rw [if_pos hd]
            exact le_max_left _ _
          · rw [if_neg hd]
            have := h2 iid d
            rw [bucketVal_of_dget _ _ _ _ hb] at this
            exact this
        · rw [if_neg hi]
          exact h2 iid' d
      · intro iid' d
        rw [bucketVal_dinsert, usageVal_dinsert]
        by_cases hi : iid' = iid
        · rw [if_pos hi, if_pos hi, availableForType_decrementBucket, usageForType_addUsage]
          by_cases hd : d = reqType
          · rw [if_pos hd, if_pos hd, usageForType_entry]
            have hmax : max 0 (availableForType buckets reqType - u) =
                availableForType buckets reqType - u :=
              max_eq_right (by linarith)
            rw [hmax]
            have h3' := h3 iid reqType
            rw [hbv] at h3'
            subst hi
            subst hd
            linarith
          · rw [if_neg hd, if_neg hd, usageForType_entry]
            have h3' := h3 iid d
            rw [bucketVal_of_dget _ _ _ _ hb] at h3'
            subst hi
            exact h3'
        · rw [if_neg hi, if_neg hi]
          exact h3 iid' d
      · intro s hs
        rcases List.mem_append.mp hs with h | h
        · exact h4 s h
        · exact happ s h
  · refine ⟨by simp, ?_, ?_, by simp⟩
    · intro iid d
      exact bucketVal_buildInventoryState_nonneg context.inventory iid d
    · intro iid d
      simp [usageVal, dget_nil]

/-! ## Projections of `normalizeCandidate` (all definitional) -/

theorem normalizeCandidate_deltas (context : PlanningContext) (cand : PlanCandidate) :
    (normalizeCandidate cand (buildInventoryState context.inventory).1
      (buildNameIndex context.inventory) (buildInventoryState context.inventory).2).inventoryDeltas
      = deltasOfUsage (candidateNormState context cand).usage := rfl

theorem normalizeCandidate_shortfalls (context : PlanningContext) (cand : PlanCandidate) :
    (normalizeCandidate cand (buildInventoryState context.inventory).1
      (buildNameIndex context.inventory) (buildInventoryState context.inventory).2).shoppingShortfall
      = (candidateNormState context cand).shortfalls := rfl

theorem normalizeCandidate_ingredients (cand : PlanCandidate)
    (state : List (ℕ × InventoryBuckets)) (nameIndex : List (String × ℕ))
    (warnings : List (ℕ × String)) :
    (normalizeCandidate cand state nameIndex warnings).ingredientsRequired =
      cand.ingredientsRequired := rfl

theorem normalizeCandidate_servings (cand : PlanCandidate)
    (state : List (ℕ × InventoryBuckets)) (nameIndex : List (String × ℕ))
    (warnings : List (ℕ × String)) :
    (normalizeCandidate cand state nameIndex warnings).servings = cand.servings := rfl

theorem normalizeCandidate_macros (cand : PlanCandidate)
    (state : List (ℕ × InventoryBuckets)) (nameIndex : List (String × ℕ))
    (warnings : List (ℕ × String)) :
    (normalizeCandidate cand state nameIndex warnings).macrosPerServing =
      pyOrMacros (recomputeMacros cand).1 cand.macrosPerServing := rfl

theorem runDiffValidator_candidates (context : PlanningContext) (plan : Plan) :
    (runDiffValidator context plan).candidates =
      plan.candidates.map (fun c =>
        normalizeCandidate c (buildInventoryState context.inventory).1
          (buildNameIndex context.inventory) (buildInventoryState context.inventory).2) := rfl

/-! ## Claim C1 -/

/-- **C1** — No overdraft. For every candidate produced by the reconciler
(`DiffValidator.run`), each populated field of every `InventoryDelta` is
positive and bounded by the original converted stock of that inventory id in
the same unit domain; for every candidate produced by `_build_candidate`, each
delta records `min(available, needed)` for its matched item, is positive and
never exceeds the item's stated quantity. A delta record is only created for a
positive clamped usage. -/
theorem claim1_no_overdraft :
    (∀ (context : PlanningContext) (plan : Plan) (c : PlanCandidate) (d : InventoryDelta),
        c ∈ (runDiffValidator context plan).candidates → d ∈ c.inventoryDeltas →
        (∀ v, d.useG = some v →
          0 < v ∧ v ≤ bucketVal (buildInventoryState context.inventory).1 d.ingredientId .g) ∧
        (∀ v, d.useMl = some v →
          0 < v ∧ v ≤ bucketVal (buildInventoryState context.inventory).1 d.ingredientId .ml) ∧
        (∀ v, d.useCount = some v →
          0 < v ∧ v ≤ bucketVal (buildInventoryState context.inventory).1 d.ingredientId .cnt)) ∧
    (∀ (recipe : Recipe) (context : PlanningContext)
        (lookup : List (String × InventoryItem)) (d : InventoryDelta),
        d ∈ (buildCandidate recipe context lookup).inventoryDeltas →
        ∃ ing item, ing ∈ recipe.ingredients ∧
          resolveInventoryItem (normalizeName ing.name) lookup = some item ∧
          d = ⟨item.id, some (min item.quantity ing.quantityG), none, none⟩ ∧
          0 < min item.quantity ing.quantityG ∧
          min item.quantity ing.quantityG ≤ item.quantity) := by
  constructor
  · intro context plan c d hc hd
    rw [runDiffValidator_candidates] at hc
    obtain ⟨cand, hcand, rfl⟩ := List.mem_map.mp hc
    rw [normalizeCandidate_deltas] at hd
    obtain ⟨p, hp, rfl⟩ := List.mem_map.mp hd
    obtain ⟨hnd, hnn, hsum, -⟩ := candidateNormState_inv context cand
    have hget : dget (candidateNormState context cand).usage p.1 = some p.2 :=
      dget_eq_some_of_mem _ _ _ hnd (by simpa using hp)
    have husage : ∀ dom, usageVal (candidateNormState context cand).usage p.1 dom =
        usageForType p.2 dom := by
      intro dom; simp [usageVal, hget]
    have heps : (0:ℚ) < dvEpsilon := by norm_num [dvEpsilon]
    refine ⟨?_, ?_, ?_⟩
    · intro v hv
      simp only [maybeValue] at hv
      split at hv
      · cases hv
        have h1 := hsum p.1 .g
        have h2 := hnn p.1 .g
        rw [husage .g] at h1
        simp only [usageForType] at h1
        constructor
        · linarith
        · simp only
          linarith
      · cases hv
    · intro v hv
      simp only [maybeValue] at hv
      split at hv
      · cases hv
        have h1 := hsum p.1 .ml
        have h2 := hnn p.1 .ml
        rw [husage .ml] at h1
        simp only [usageForType] at h1
        constructor
        · linarith
        · simp only
          linarith
      · cases hv
    · intro v hv
      simp only [maybeValue] at hv
      split at hv
      · cases hv
        have h1 := hsum p.1 .cnt
        have h2 := hnn p.1 .cnt
        rw [husage .cnt] at h1
        simp only [usageForType] at h1
        constructor
        · linarith
        · simp only
          linarith
      · cases hv
  · intro recipe context lookup d hd
    have hd' : d ∈ recipe.ingredients.filterMap (buildCandidateDelta lookup) := hd
    obtain ⟨ing, hing, hsome⟩ := List.mem_filterMap.mp hd'
    unfold buildCandidateDelta at hsome
    cases hres : resolveInventoryItem (normalizeName ing.name) lookup with
    | none => rw [hres] at hsome; cases hsome
    | some item =>
      rw [hres] at hsome
      simp only at hsome
      split at hsome
      · cases hsome
        exact ⟨ing, item, hing, hres, rfl, by assumption, min_le_left _ _⟩
      · cases hsome

/-! ## Claim C2 — idempotence of reconciliation -/

/-- The macros field a normalized candidate ends up with. -/
def newMacros (c : PlanCandidate) : Option Macros :=
  pyOrMacros (recomputeMacros c).1 c.macrosPerServing

theorem macroDeltaStep_diag (pairs : List (ℚ × ℚ)) (h : ∀ p ∈ pairs, p.1 = p.2) :
    ∀ acc : ℚ × ℚ, acc.1 = 0 → (pairs.foldl macroDeltaStep acc).1 = 0 := by
  induction pairs with
  | nil => intro acc hacc; simpa using hacc
  | cons p rest ih =>
    intro acc hacc
    have hp := h p (List.mem_cons_self p rest)
    have hrest := fun q hq => h q (List.mem_cons_of_mem p hq)
    simp only [List.foldl_cons]
    refine ih hrest _ ?_
    unfold macroDeltaStep
    split
    · exact hacc
    · simp [hacc, hp]

/-- `_macro_delta(m, m) = 0`: identical macros have zero divergence. -/
theorem macroDelta_self (m : Macros) : macroDelta m m = 0 := by
  have hnum : ([(m.kcal.getD 0, m.kcal.getD 0), (m.proteinG.getD 0, m.proteinG.getD 0),
      (m.carbG.getD 0, m.carbG.getD 0),
      (m.fatG.getD 0, m.fatG.getD 0)].foldl macroDeltaStep ((0:ℚ), (0:ℚ))).1 = 0 := by
    refine macroDeltaStep_diag _ ?_ _ rfl
    intro p hp
    simp only [List.mem_cons, List.not_mem_nil, or_false] at hp
    rcases hp with h|h|h|h <;> simp [h]
  simp only [macroDelta]
  split
  · rfl
  · rw [hnum, zero_div]

theorem macroTotalMass_congr (c c' : PlanCandidate)
    (h : c'.ingredientsRequired = c.ingredientsRequired) :
    macroTotalMass c' = macroTotalMass c := by
  simp [macroTotalMass, h]

theorem macroServings_congr (c c' : PlanCandidate) (h : c'.servings = c.servings) :
    macroServings c' = macroServings c := by
  simp [macroServings, h]

theorem macroEstimate_congr (c c' : PlanCandidate)
    (hing : c'.ingredientsRequired = c.ingredientsRequired)
    (hserv : c'.servings = c.servings) :
    macroEstimate c' = macroEstimate c := by
  unfold macroEstimate
  rw [macroTotalMass_congr c c' hing, macroServings_congr c c' hserv]

/-- Applying the macro reconciliation to a candidate that already carries its
own reconciled macros leaves the field unchanged. -/
theorem newMacros_idem (c c' : PlanCandidate)
    (hing : c'.ingredientsRequired = c.ingredientsRequired)
    (hserv : c'.servings = c.servings)
    (hmac : c'.macrosPerServing = newMacros c) :
    newMacros c' = newMacros c := by
  have hTM := macroTotalMass_congr c c' hing
  have hSV := macroServings_congr c c' hserv
  have hME := macroEstimate_congr c c' hing hserv
  by_cases hdeg : macroTotalMass c ≤ 0 ∨ macroServings c ≤ 0
  · have h1 : recomputeMacros c = (c.macrosPerServing, []) := by
      unfold recomputeMacros
      rw [if_pos hdeg]
    have h2 : recomputeMacros c' = (c'.macrosPerServing, []) := by
      unfold recomputeMacros
      rw [hTM, hSV, if_pos hdeg]
    have hN : newMacros c = c.macrosPerServing := by
      unfold newMacros
      rw [h1]
      cases c.macrosPerServing <;> rfl
    unfold newMacros
    rw [h2, h1, hmac, hN]
  · have hdeg' : ¬ (macroTotalMass c' ≤ 0 ∨ macroServings c' ≤ 0) := by
      rw [hTM, hSV]; exact hdeg
    cases hcm : c.macrosPerServing with
    | none =>
      have hN : newMacros c = some (macroEstimate c) := by
        unfold newMacros recomputeMacros
        rw [if_neg hdeg, hcm]
        rfl
      have hcm' : c'.macrosPerServing = some (macroEstimate c) := by rw [hmac, hN]
      have hL : newMacros c' = some (macroEstimate c) := by
        unfold newMacros recomputeMacros
        rw [if_neg hdeg', hcm', hME]
        dsimp only
        by_cases hdiv : macroDelta (macroEstimate c) (macroEstimate c) > 0.2
        · rw [if_pos hdiv]
          rfl
        · rw [if_neg hdiv]
          rfl
      rw [hL, hN]
    | some existing =>
      by_cases hdiv : macroDelta existing (macroEstimate c) > 0.2
      · have hN : newMacros c = some (macroEstimate c) := by
          unfold newMacros recomputeMacros
          rw [if_neg hdeg, hcm]
          dsimp only
          rw [if_pos hdiv]
          rfl
        have hcm' : c'.macrosPerServing = some (macroEstimate c) := by rw [hmac, hN]
        have hself : ¬ macroDelta (macroEstimate c) (macroEstimate c) > 0.2 := by
          rw [macroDelta_self]
          norm_num
        have hL : newMacros c' = some (macroEstimate c) := by
          unfold newMacros recomputeMacros
          rw [if_neg hdeg', hcm', hME]
          dsimp only
          rw [if_neg hself]
          rfl
        rw [hL, hN]
      · have hN : newMacros c = some existing := by
          unfold newMacros recomputeMacros
          rw [if_neg hdeg, hcm]
          dsimp only
          rw [if_neg hdiv]
          rfl
        have hcm' : c'.macrosPerServing = some existing := by rw [hmac, hN]
        have hL : newMacros c' = some existing := by
          unfold newMacros recomputeMacros
          rw [if_neg hdeg', hcm', hME]
          dsimp only
          rw [if_neg hdiv]
          rfl
        rw [hL, hN]

theorem candidateNormState_congr (context : PlanningContext) (c c' : PlanCandidate)
    (h : c'.ingredientsRequired = c.ingredientsRequired) :
    candidateNormState context c' = candidateNormState context c := by
  unfold candidateNormState
  rw [h]

/-- **C2** — Idempotence of reconciliation: running `DiffValidator.run` on its
own output reproduces the same inventory deltas, the same shopping shortfalls
and the same `macros_per_serving` for every candidate, because each run
re-derives them from the unchanged ingredient requirements against a fresh
copy of the original context inventory. -/
theorem claim2_reconcile_idempotent (context : PlanningContext) (plan : Plan) :
    ((runDiffValidator context (runDiffValidator context plan)).candidates.map
        (fun c => (c.inventoryDeltas, c.shoppingShortfall, c.macrosPerServing))) =
      ((runDiffValidator context plan).candidates.map
        (fun c => (c.inventoryDeltas, c.shoppingShortfall, c.macrosPerServing))) := by
  rw [runDiffValidator_candidates context (runDiffValidator context plan),
    runDiffValidator_candidates context plan,
    List.map_map, List.map_map, List.map_map]
  apply List.map_congr_left
  intro cand _
  simp only [Function.comp_apply]
  set norm := fun c => normalizeCandidate c (buildInventoryState context.inventory).1
    (buildNameIndex context.inventory) (buildInventoryState context.inventory).2 with hnorm
  have hing : (norm cand).ingredientsRequired = cand.ingredientsRequired :=
    normalizeCandidate_ingredients ..
  have hserv : (norm cand).servings = cand.servings := normalizeCandidate_servings ..
  have hmac : (norm cand).macrosPerServing = newMacros cand := normalizeCandidate_macros ..
  have hstate : candidateNormState context (norm cand) = candidateNormState context cand :=
    candidateNormState_congr context cand (norm cand) hing
  refine Prod.ext ?_ (Prod.ext ?_ ?_)
  · show (norm (norm cand)).inventoryDeltas = (norm cand).inventoryDeltas
    rw [hnorm]
    rw [normalizeCandidate_deltas context (norm cand), normalizeCandidate_deltas context cand,
      hstate]
  · show (norm (norm cand)).shoppingShortfall = (norm cand).shoppingShortfall
    rw [hnorm]
    rw [normalizeCandidate_shortfalls context (norm cand),
      normalizeCandidate_shortfalls context cand, hstate]
  · show (norm (norm cand)).macrosPerServing = (norm cand).macrosPerServing
    rw [hnorm]
    rw [normalizeCandidate_macros (norm cand), hmac]
    show newMacros (norm cand) = newMacros cand
    exact newMacros_idem cand (norm cand) hing hserv hmac

/-! ## Stable descending sort: permutation, sortedness, stability -/

theorem insertDesc_perm {α : Type} (key : α → ℚ) (x : α) (l : List α) :
    (insertDesc key x l).Perm (x :: l) := by
  induction l with
  | nil => exact List.Perm.refl _
  | cons y ys ih =>
    by_cases h : key x ≤ key y
    · simp only [insertDesc, if_pos h]
      exact (ih.cons y).trans (List.Perm.swap x y ys)
    · simp only [insertDesc, if_neg h]
      exact List.Perm.refl _

theorem mem_insertDesc {α : Type} (key : α → ℚ) (x a : α) (l : List α) :
    a ∈ insertDesc key x l ↔ a = x ∨ a ∈ l := by
  rw [(insertDesc_perm key x l).mem_iff]
  simp

theorem stableSortDesc_perm_aux {α : Type} (key : α → ℚ) :
    ∀ (l acc : List α), (l.foldl (fun acc x => insertDesc key x acc) acc).Perm (acc ++ l) := by
  intro l
  induction l with
  | nil => intro acc; simp
  | cons x xs ih =>
    intro acc
    simp only [List.foldl_cons]
    refine (ih (insertDesc key x acc)).trans ?_
    have h1 : (insertDesc key x acc ++ xs).Perm ((x :: acc) ++ xs) :=
      (insertDesc_perm key x acc).append_right xs
    refine h1.trans ?_
    exact List.perm_middle.symm

theorem stableSortDesc_perm {α : Type} (key : α → ℚ) (l : List α) :
    (stableSortDesc key l).Perm l := by
  simpa using stableSortDesc_perm_aux key l []

theorem mem_stableSortDesc {α : Type} (key : α → ℚ) (a : α) (l : List α) :
    a ∈ stableSortDesc key l ↔ a ∈ l :=
  (stableSortDesc_perm key l).mem_iff

theorem insertDesc_sorted {α : Type} (key : α → ℚ) (x : α) (l : List α)
    (h : l.Pairwise (fun a b => key b ≤ key a)) :
    (insertDesc key x l).Pairwise (fun a b => key b ≤ key a) := by
  induction l with
  | nil => simp [insertDesc]
  | cons y ys ih =>
    rw [List.pairwise_cons] at h
    by_cases hle : key x ≤ key y
    · simp only [insertDesc, if_pos hle]
      rw [List.pairwise_cons]
      refine ⟨?_, ih h.2⟩
      intro z hz
      rcases (mem_insertDesc key x z ys).mp hz with rfl | hz'
      · exact hle
      · exact h.1 z hz'
    · simp only [insertDesc, if_neg hle]
      have hlt : key y < key x := lt_of_not_le hle
      rw [List.pairwise_cons]
      refine ⟨?_, List.pairwise_cons.mpr h⟩
      intro z hz
      rcases List.mem_cons.mp hz with rfl | hz'
      · exact le_of_lt hlt
      · exact le_trans (h.1 z hz') (le_of_lt hlt)

theorem stableSortDesc_sorted {α : Type} (key : α → ℚ) (l : List α) :
    (stableSortDesc key l).Pairwise (fun a b => key b ≤ key a) := by
  unfold stableSortDesc
  exact foldl_invariant _ (fun acc => acc.Pairwise (fun a b => key b ≤ key a))
    (fun acc x h => insertDesc_sorted key x acc h) l [] (by simp)

theorem insertDesc_stable {α : Type} (key : α → ℚ) (pos : α → ℕ) (x : α) (l : List α)
    (hs : l.Pairwise (fun a b => key b ≤ key a))
    (ht : l.Pairwise (fun a b => key b < key a ∨ pos a < pos b))
    (hx : ∀ y ∈ l, pos y < pos x) :
    (insertDesc key x l).Pairwise (fun a b => key b < key a ∨ pos a < pos b) := by
  induction l with
  | nil => simp [insertDesc]
  | cons y ys ih =>
    rw [List.pairwise_cons] at hs ht
    by_cases hle : key x ≤ key y
    · simp only [insertDesc, if_pos hle]
      rw [List.pairwise_cons]
      refine ⟨?_, ih hs.2 ht.2 (fun z hz => hx z (List.mem_cons_of_mem y hz))⟩
      intro z hz
      rcases (mem_insertDesc key x z ys).mp hz with rfl | hz'
      · exact Or.inr (hx y (List.mem_cons_self y ys))
      · exact ht.1 z hz'
    · simp only [insertDesc, if_neg hle]
      have hlt : key y < key x := lt_of_not_le hle
      rw [List.pairwise_cons]
      refine ⟨?_, List.pairwise_cons.mpr ht⟩
      intro z hz
      rcases List.mem_cons.mp hz with rfl | hz'
      · exact Or.inl hlt
      · exact Or.inl (lt_of_le_of_lt (hs.1 z hz') hlt)

theorem stableSortDesc_stable_aux {α : Type} (key : α → ℚ) (pos : α → ℕ) :
    ∀ (l acc : List α),
      acc.Pairwise (fun a b => key b ≤ key a) →
      acc.Pairwise (fun a b => key b < key a ∨ pos a < pos b) →
      (∀ a ∈ acc, ∀ b ∈ l, pos a < pos b) →
      l.Pairwise (fun a b => pos a < pos b) →
      (l.foldl (fun acc x => insertDesc key x acc) acc).Pairwise
        (fun a b => key b < key a ∨ pos a < pos b) := by
  intro l
  induction l with
  | nil => intro acc _ ht _ _; simpa using ht
  | cons x xs ih =>
    intro acc hs ht hcross hpos
    rw [List.pairwise_cons] at hpos
    simp only [List.foldl_cons]
    refine ih (insertDesc key x acc)
      (insertDesc_sorted key x acc hs)
      (insertDesc_stable key pos x acc hs ht
        (fun y hy => hcross y hy x (List.mem_cons_self x xs)))
      ?_ hpos.2
    intro a ha b hb
    rcases (mem_insertDesc key x a acc).mp ha with rfl | ha'
    · exact hpos.1 b hb
    · exact hcross a ha' b (List.mem_cons_of_mem x hb)

theorem mem_enumFrom_le {α : Type} :
    ∀ (l : List α) (n : ℕ) (p : ℕ × α), p ∈ List.enumFrom n l → n ≤ p.1 := by
  intro l
  induction l with
  | nil => intro n p hp; simp [List.enumFrom] at hp
  | cons x xs ih =>
    intro n p hp
    rcases List.mem_cons.mp hp with rfl | hp'
    · exact le_refl _
    · exact le_trans (Nat.le_succ n) (ih (n + 1) p hp')

theorem enumFrom_pairwise_lt {α : Type} :
    ∀ (l : List α) (n : ℕ),
      (List.enumFrom n l).Pairwise (fun a b => a.1 < b.1) := by
  intro l
  induction l with
  | nil => intro n; simp [List.enumFrom]
  | cons x xs ih =>
    intro n
    simp only [List.enumFrom]
    rw [List.pairwise_cons]
    refine ⟨?_, ih (n + 1)⟩
    intro p hp
    exact lt_of_lt_of_le (Nat.lt_succ_self n) (mem_enumFrom_le xs (n + 1) p hp)

theorem enum_pairwise_lt {α : Type} (l : List α) :
    l.enum.Pairwise (fun a b => a.1 < b.1) :=
  enumFrom_pairwise_lt l 0

theorem stableSortDesc_stable {α : Type} (key : α → ℚ) (l : List α) :
    (stableSortDesc (fun p => key p.2) l.enum).Pairwise
      (fun p q => key p.2 = key q.2 → p.1 < q.1) := by
  have hT := stableSortDesc_stable_aux (fun p : ℕ × α => key p.2) Prod.fst l.enum []
    (by simp) (by simp) (by simp) (enum_pairwise_lt l)
  have hS := stableSortDesc_sorted (fun p : ℕ × α => key p.2) l.enum
  refine List.Pairwise.imp ?_ (hS.and hT)
  intro a b hab heq
  rcases hab.2 with hlt | hpos
  · have hlt' : key b.2 < key a.2 := hlt
    rw [heq] at hlt'
    exact absurd hlt' (lt_irrefl _)
  · exact hpos

theorem insertDesc_map {α β : Type} (key : α → ℚ) (f : β → α) (x : β) (l : List β) :
    (insertDesc (fun b => key (f b)) x l).map f = insertDesc key (f x) (l.map f) := by
  induction l with
  | nil => rfl
  | cons y ys ih =>
    by_cases h : key (f x) ≤ key (f y)
    · simp only [insertDesc, if_pos h, List.map_cons]
      rw [ih]
    · simp only [insertDesc, if_neg h, List.map_cons]

theorem stableSortDesc_map_aux {α β : Type} (key : α → ℚ) (f : β → α) :
    ∀ (l : List β) (acc : List β),
      (l.foldl (fun acc x => insertDesc (fun b => key (f b)) x acc) acc).map f =
        (l.map f).foldl (fun acc x => insertDesc key x acc) (acc.map f) := by
  intro l
  induction l with
  | nil => intro acc; simp
  | cons x xs ih =>
    intro acc
    simp only [List.foldl_cons, List.map_cons]
    rw [ih, insertDesc_map]

theorem stableSortDesc_map {α β : Type} (key : α → ℚ) (f : β → α) (l : List β) :
    (stableSortDesc (fun b => key (f b)) l).map f = stableSortDesc key (l.map f) := by
  unfold stableSortDesc
  simpa using stableSortDesc_map_aux key f l []

/-! ## Claim C6 -/

/-- **C6** — Ranking order: the evaluations `rank_recipes` returns are sorted
by descending aggregate score, the ranked list is the image of the stable sort
of the index-decorated evaluations, and in that decorated sort two evaluations
with equal scores always appear in increasing catalog order (Python's
`list.sort(..., reverse=True)` is stable). -/
theorem claim6_ranking_order (hardRules softRules : List ConstraintRule)
    (context : PlanningContext) (recipes : List Recipe) :
    (rankRecipes hardRules softRules context recipes).Pairwise
      (fun a b => b.score ≤ a.score) ∧
    rankRecipes hardRules softRules context recipes =
      (stableSortDesc (fun p => p.2.score)
        (candidateEvals hardRules softRules context recipes).enum).map Prod.snd ∧
    (stableSortDesc (fun p => p.2.score)
        (candidateEvals hardRules softRules context recipes).enum).Pairwise
      (fun p q => p.2.score = q.2.score → p.1 < q.1) := by
  refine ⟨stableSortDesc_sorted _ _,
    ?_, stableSortDesc_stable (fun e : ConstraintEvaluation => e.score) _⟩
  unfold rankRecipes
  rw [stableSortDesc_map (fun e : ConstraintEvaluation => e.score) Prod.snd
    (candidateEvals hardRules softRules context recipes).enum]
  rw [List.enum_map_snd]

/-! ## Claims C3 and C10 — the engine's hard/soft split -/

theorem evalHardRules_some (recipe : Recipe) (snapshot : PlanningSnapshot) :
    ∀ (rules : List ConstraintRule) (acc res : List RuleResult),
      evalHardRules recipe snapshot rules acc = some res →
      res = acc ++ rules.map (fun rule => rule recipe snapshot) := by
  intro rules
  induction rules with
  | nil =>
    intro acc res h
    simp only [evalHardRules] at h
    cases h
    simp
  | cons rule rest ih =>
    intro acc res h
    simp only [evalHardRules] at h
    by_cases hp : (rule recipe snapshot).passed = true
    · rw [if_pos hp] at h
      rw [ih _ _ h]
      simp
    · rw [if_neg hp] at h
      cases h

theorem evalHardRules_fail (recipe : Recipe) (snapshot : PlanningSnapshot) :
    ∀ (rules : List ConstraintRule) (acc : List RuleResult) (rule : ConstraintRule),
      rule ∈ rules → ¬ (rule recipe snapshot).passed = true →
      evalHardRules recipe snapshot rules acc = none := by
  intro rules
  induction rules with
  | nil =>
    intro acc rule h _
    simp at h
  | cons r rest ih =>
    intro acc rule hmem hfail
    simp only [evalHardRules]
    rcases List.mem_cons.mp hmem with rfl | hmem'
    · rw [if_neg hfail]
    · by_cases hp : (r recipe snapshot).passed = true
      · rw [if_pos hp]
        exact ih _ rule hmem' hfail
      · rw [if_neg hp]

theorem evaluateRecipe_none_of_hard_fail (hardRules softRules : List ConstraintRule)
    (recipe : Recipe) (snapshot : PlanningSnapshot) (rule : ConstraintRule)
    (hmem : rule ∈ hardRules) (hfail : ¬ (rule recipe snapshot).passed = true) :
    evaluateRecipe hardRules softRules recipe snapshot = none := by
  unfold evaluateRecipe
  rw [evalHardRules_fail recipe snapshot hardRules [] rule hmem hfail]

theorem evaluateRecipe_recipe (hardRules softRules : List ConstraintRule)
    (recipe : Recipe) (snapshot : PlanningSnapshot) (e : ConstraintEvaluation)
    (h : evaluateRecipe hardRules softRules recipe snapshot = some e) :
    e.recipe = recipe := by
  unfold evaluateRecipe at h
  cases hh : evalHardRules recipe snapshot hardRules [] with
  | none => rw [hh] at h; cases h
  | some hardResults =>
    rw [hh] at h
    simp only at h
    cases h
    rfl

/-- The diet rule fails whenever a diet is set and neither the diet tag nor the
`"flex"` escape tag is present. -/
theorem dietRule_fails (recipe : Recipe) (snapshot : PlanningSnapshot)
    (hd : pyLower (pyStrip (snapshot.context.prefs.diet.getD "")) ≠ "")
    (h1 : ¬ (recipe.tags.map normalizeName).contains
        (pyLower (pyStrip (snapshot.context.prefs.diet.getD ""))) = true)
    (h2 : ¬ (recipe.tags.map normalizeName).contains "flex" = true) :
    (dietCompatibilityRule recipe snapshot).passed = false := by
  unfold dietCompatibilityRule
  rw [if_neg hd]
  simp only [h1, h2, Bool.or_self, Bool.false_eq_true, if_false]

/-- **C3** — Hard-rule exclusion: a recipe for which any of the three default
hard rules (diet compatibility, allergen exclusion, time limit) fails — in
particular one whose normalized tag set misses a stated diet preference and
carries no `"flex"` escape tag — appears in no evaluation that `rank_recipes`
returns under the default engine. -/
theorem claim3_hard_rule_exclusion (context : PlanningContext) (recipes : List Recipe)
    (r : Recipe)
    (h : ¬ (dietCompatibilityRule r (buildSnapshot context)).passed = true
       ∨ ¬ (allergenExclusionRule r (buildSnapshot context)).passed = true
       ∨ ¬ (maxTimeRule r (buildSnapshot context)).passed = true
       ∨ (pyLower (pyStrip (context.prefs.diet.getD "")) ≠ ""
          ∧ ¬ (r.tags.map normalizeName).contains
              (pyLower (pyStrip (context.prefs.diet.getD ""))) = true
          ∧ ¬ (r.tags.map normalizeName).contains "flex" = true)) :
    ∀ e ∈ rankRecipes defaultHardRules defaultSoftRules context recipes, e.recipe ≠ r := by
  have hnone : evaluateRecipe defaultHardRules defaultSoftRules r (buildSnapshot context) =
      none := by
    rcases h with hf | hf | hf | ⟨hd, h1, h2⟩
    · exact evaluateRecipe_none_of_hard_fail _ _ _ _ dietCompatibilityRule
        (by simp [defaultHardRules]) hf
    · exact evaluateRecipe_none_of_hard_fail _ _ _ _ allergenExclusionRule
        (by simp [defaultHardRules]) hf
    · exact evaluateRecipe_none_of_hard_fail _ _ _ _ maxTimeRule
        (by simp [defaultHardRules]) hf
    · refine evaluateRecipe_none_of_hard_fail _ _ _ _ dietCompatibilityRule
        (by simp [defaultHardRules]) ?_
      rw [dietRule_fails r (buildSnapshot context) hd h1 h2]
      simp
  intro e he hne
  rw [rankRecipes] at he
  rw [mem_stableSortDesc] at he
  obtain ⟨r', hr', heval⟩ := List.mem_filterMap.mp he
  have : e.recipe = r' := evaluateRecipe_recipe _ _ _ _ _ heval
  rw [hne] at this
  rw [← this] at heval
  rw [hnone] at heval
  cases heval

theorem dietRule_adjustment (recipe : Recipe) (snapshot : PlanningSnapshot) :
    (dietCompatibilityRule recipe snapshot).scoreAdjustment = 0 ∨
      (dietCompatibilityRule recipe snapshot).scoreAdjustment = 0.5 := by
  simp only [dietCompatibilityRule]
  split
  · left; rfl
  · split
    · right; rfl
    · left; rfl

theorem allergenRule_adjustment (recipe : Recipe) (snapshot : PlanningSnapshot) :
    (allergenExclusionRule recipe snapshot).scoreAdjustment = 0 ∨
      (allergenExclusionRule recipe snapshot).scoreAdjustment = 0.3 := by
  simp only [allergenExclusionRule]
  split
  · left; rfl
  · split
    · left; rfl
    · right; rfl

theorem maxTimeRule_adjustment (recipe : Recipe) (snapshot : PlanningSnapshot) :
    (maxTimeRule recipe snapshot).scoreAdjustment = 0 ∨
      (maxTimeRule recipe snapshot).scoreAdjustment = 0.2 := by
  simp only [maxTimeRule]
  split
  · left; rfl
  · split
    · right; rfl
    · left; rfl

/-- **C10** — Soft-only score: an evaluation returned by the default engine
carries as its score exactly the sum of the soft rules' adjustments; the hard
rules' results (whose positive adjustments are only ever `0.5`, `0.3`, `0.2`
or `0`) are recorded in `rule_results` but never summed into the score. -/
theorem claim10_soft_only_score (recipe : Recipe) (snapshot : PlanningSnapshot)
    (e : ConstraintEvaluation)
    (h : evaluateRecipe defaultHardRules defaultSoftRules recipe snapshot = some e) :
    e.score = ((defaultSoftRules.map
        (fun rule => (rule recipe snapshot).scoreAdjustment)).sum) ∧
    e.ruleResults = (defaultHardRules.map (fun rule => rule recipe snapshot)) ++
      (defaultSoftRules.map (fun rule => rule recipe snapshot)) ∧
    (∀ rule ∈ defaultHardRules, (rule recipe snapshot).scoreAdjustment = 0 ∨
      (rule recipe snapshot).scoreAdjustment = 0.5 ∨
      (rule recipe snapshot).scoreAdjustment = 0.3 ∨
      (rule recipe snapshot).scoreAdjustment = 0.2) := by
  unfold evaluateRecipe at h
  cases hh : evalHardRules recipe snapshot defaultHardRules [] with
  | none => rw [hh] at h; cases h
  | some hardResults =>
    rw [hh] at h
    simp only at h
    have hhr : hardResults = defaultHardRules.map (fun rule => rule recipe snapshot) := by
      have := evalHardRules_some recipe snapshot defaultHardRules [] hardResults hh
      simpa using this
    cases h
    refine ⟨?_, ?_, ?_⟩
    · simp [List.map_map]
      rfl
    · rw [hhr]
    · intro rule hrule
      rcases List.mem_cons.mp hrule with rfl | hrule'
      · rcases dietRule_adjustment recipe snapshot with h | h
        · exact Or.inl h
        · exact Or.inr (Or.inl h)
      · rcases List.mem_cons.mp hrule' with rfl | hrule''
        · rcases allergenRule_adjustment recipe snapshot with h | h
          · exact Or.inl h
          · exact Or.inr (Or.inr (Or.inl h))
        · rcases List.mem_cons.mp hrule'' with rfl | hrule'''
          · rcases maxTimeRule_adjustment recipe snapshot with h | h
            · exact Or.inl h
            · exact Or.inr (Or.inr (Or.inr h))
          · simp at hrule'''

/-! ## Claim C7 — the diet rule, corrected: the escape tag is `"flex"` -/

/-- **C7 (amended)** — Diet compatibility: the rule passes exactly when no diet
preference is set, or the normalized tag set contains the normalized
preference, or it contains the literal `"flex"` escape tag (not `"flexible"`
as the spec wording suggests); on failure its single detail names the missing
diet tag. -/
theorem claim7_diet_rule (recipe : Recipe) (snapshot : PlanningSnapshot) :
    ((dietCompatibilityRule recipe snapshot).passed = true ↔
      (pyLower (pyStrip (snapshot.context.prefs.diet.getD "")) = "" ∨
        pyLower (pyStrip (snapshot.context.prefs.diet.getD "")) ∈
          recipe.tags.map normalizeName ∨
        "flex" ∈ recipe.tags.map normalizeName)) ∧
    ((dietCompatibilityRule recipe snapshot).passed = false →
      (dietCompatibilityRule recipe snapshot).details =
        ["recipe missing tag for diet '" ++
          pyLower (pyStrip (snapshot.context.prefs.diet.getD "")) ++ "'"]) := by
  by_cases hd : pyLower (pyStrip (snapshot.context.prefs.diet.getD "")) = ""
  · have hrule : dietCompatibilityRule recipe snapshot =
        ⟨"diet_compatibility", true, 0, []⟩ := by
      simp only [dietCompatibilityRule]
      rw [if_pos hd]
    rw [hrule]
    constructor
    · simp [hd]
    · intro hfalse
      cases hfalse
  · by_cases hc : ((recipe.tags.map normalizeName).contains
        (pyLower (pyStrip (snapshot.context.prefs.diet.getD ""))) ||
        (recipe.tags.map normalizeName).contains "flex") = true
    · have hrule : dietCompatibilityRule recipe snapshot =
          ⟨"diet_compatibility", true, 0.5, []⟩ := by
        simp only [dietCompatibilityRule]
        rw [if_neg hd, if_pos hc]
      rw [hrule]
      constructor
      · simp only [true_iff]
        rw [Bool.or_eq_true] at hc
        rcases hc with h | h
        · exact Or.inr (Or.inl (by simpa using h))
        · exact Or.inr (Or.inr (by simpa using h))
      · intro hfalse
        cases hfalse
    · have hrule : dietCompatibilityRule recipe snapshot =
          ⟨"diet_compatibility", false, 0,
            ["recipe missing tag for diet '" ++
              pyLower (pyStrip (snapshot.context.prefs.diet.getD "")) ++ "'"]⟩ := by
        simp only [dietCompatibilityRule]
        rw [if_neg hd, if_neg hc]
      rw [hrule]
      rw [Bool.or_eq_true, not_or] at hc
      constructor
      · simp only [Bool.false_eq_true, false_iff, not_or]
        refine ⟨hd, ?_, ?_⟩
        · simpa using hc.1
        · simpa using hc.2
      · intro _
        rfl

/-- Recipe carrying the literal tag `"flexible"` but not `"flex"`. -/
def recipeC7 : Recipe :=
  { title := "Omnivore Special", ingredients := [], tags := ["flexible"], steps := [],
    estimatedTimeMin := 10, primaryIngredients := [] }

/-- Context with a vegan diet preference. -/
def ctxC7 : PlanningContext :=
  { date := 0, prefs := { diet := some "vegan" } }

/-- **C7 (counterexample)** — a recipe tagged exactly `"flexible"` under a
vegan preference fails the diet rule, although the claim as stated (an
explicit `"flexible"` tag passes) says it should pass. -/
theorem claim7_cx :
    (dietCompatibilityRule recipeC7 (buildSnapshot ctxC7)).passed = false ∧
    ctxC7.prefs.diet = some "vegan" ∧
    "flexible" ∈ recipeC7.tags.map normalizeName := by
  refine ⟨by decide, rfl, by decide⟩

/-! ## Claim C8 — the recency rule, corrected -/

/-- **C8 (amended)** — Recency: with no recent meals the rule contributes `0`
(not the `+0.3` novelty bonus the claim asserts); with recent meals present,
an unmatched title earns `+0.3`; a matched title is penalised by
`-max(1.5 - 0.2 * max(days_since, 0), 0.3)` computed against the *last*
matching recent meal (Python's dict comprehension keeps the last duplicate). -/
theorem claim8_recency_rule (recipe : Recipe) (snapshot : PlanningSnapshot) :
    (snapshot.context.recentMeals = [] →
      recencyPenaltyRule recipe snapshot =
        ⟨"recency_penalty", true, 0, []⟩) ∧
    (snapshot.context.recentMeals ≠ [] →
      (∀ meal ∈ snapshot.context.recentMeals,
          normalizeName meal.title ≠ normalizeName recipe.title) →
      recencyPenaltyRule recipe snapshot = ⟨"recency_penalty", true, 0.3, []⟩) ∧
    (∀ meal, snapshot.context.recentMeals ≠ [] →
      snapshot.context.recentMeals.reverse.find?
        (fun m => normalizeName m.title == normalizeName recipe.title) = some meal →
      (recencyPenaltyRule recipe snapshot).scoreAdjustment =
        -(max (1.5 - 0.2 * ((max (snapshot.currentDate - meal.date) 0 : ℤ) : ℚ)) 0.3) ∧
      (recencyPenaltyRule recipe snapshot).passed = true) := by
  refine ⟨?_, ?_, ?_⟩
  · intro h
    simp only [recencyPenaltyRule]
    rw [if_pos (by simp [h])]
  · intro hne hnomatch
    have hfind : snapshot.context.recentMeals.reverse.find?
        (fun m => normalizeName m.title == normalizeName recipe.title) = none := by
      rw [List.find?_eq_none]
      intro m hm
      simp only [beq_iff_eq]
      exact hnomatch m (List.mem_reverse.mp hm)
    simp only [recencyPenaltyRule]
    rw [if_neg (by simpa using hne), hfind]
  · intro meal hne hfind
    simp only [recencyPenaltyRule]
    rw [if_neg (by simpa using hne), hfind]
    exact ⟨rfl, rfl⟩

/-- Recipe for the recency counterexample. -/
def recipeC8 : Recipe :=
  { title := "Soup", ingredients := [], tags := [], steps := [],
    estimatedTimeMin := 5, primaryIngredients := [] }

/-- Context with no recent meals. -/
def ctxC8a : PlanningContext := { date := 100 }

/-- Context whose only recent meal is dated five days in the future. -/
def ctxC8b : PlanningContext :=
  { date := 100, recentMeals := [⟨105, "Soup"⟩] }

/-- **C8 (counterexample)** — with an empty recent-meals list the rule
contributes `0`, not the claimed `+0.3`; and for a recent meal dated in the
future (`days_since = -5`) the code clamps `days_since` to `0` and yields
`-1.5`, not the claim's un-clamped `-max(1.5 - 0.2 * days_since, 0.3) = -2.5`. -/
theorem claim8_cx :
    (recencyPenaltyRule recipeC8 (buildSnapshot ctxC8a)).scoreAdjustment = 0 ∧
    ((0:ℚ) ≠ 0.3) ∧
    (recencyPenaltyRule recipeC8 (buildSnapshot ctxC8b)).scoreAdjustment = -1.5 ∧
    ((-1.5:ℚ) ≠ -(max (1.5 - 0.2 * (((100:ℤ) - 105 : ℤ) : ℚ)) 0.3)) := by
  refine ⟨?_, by norm_num, ?_, ?_⟩
  · have h := (claim8_recency_rule recipeC8 (buildSnapshot ctxC8a)).1 rfl
    rw [h]
  · have hfind : (buildSnapshot ctxC8b).context.recentMeals.reverse.find?
        (fun m => normalizeName m.title == normalizeName recipeC8.title) =
        some ⟨105, "Soup"⟩ := by decide
    have h := ((claim8_recency_rule recipeC8 (buildSnapshot ctxC8b)).2.2
      ⟨105, "Soup"⟩ (by decide) hfind).1
    rw [h]
    have hm : (max ((buildSnapshot ctxC8b).currentDate - (105:ℤ)) 0) = 0 := by decide
    rw [hm]
    norm_num
  · intro h
    have hm : ((100:ℤ) - 105 : ℤ) = -5 := by decide
    rw [hm] at h
    rw [max_eq_left (by push_cast; norm_num)] at h
    push_cast at h
    norm_num at h

/-! ## Claim C4 — shortfall presence -/

/-- The shortfall record per ingredient exactly as the amended claim words it:
for a matched item the residual is `max(requirement - use_amount, 0)` with
`use_amount = min(available, needed)`, recorded (rounded to two decimals) only
above the `0.01` threshold of `_build_candidate`; an unmatched non-optional
ingredient yields a full-amount `not_in_inventory` record, an unmatched
optional one none. -/
def buildShortfallSpec (lookup : List (String × InventoryItem))
    (ing : RecipeIngredient) : Option ShoppingShortfall :=
  match resolveInventoryItem (normalizeName ing.name) lookup with
  | some item =>
    let useAmount := min item.quantity ing.quantityG
    let residual := max (ing.quantityG - useAmount) 0
    if residual > 0.01 then
      some ⟨some item.id, item.name, some (roundTo 2 residual), none, none,
        some "insufficient_stock"⟩
    else none
  | none =>
    if ing.optional then none
    else some ⟨none, ing.name, some ing.quantityG, none, none, some "not_in_inventory"⟩

theorem buildCandidateShortfall_eq_spec (lookup : List (String × InventoryItem))
    (ing : RecipeIngredient) :
    buildCandidateShortfall lookup ing = buildShortfallSpec lookup ing := by
  unfold buildCandidateShortfall buildShortfallSpec
  cases hres : resolveInventoryItem (normalizeName ing.name) lookup with
  | none => rfl
  | some item =>
    simp only
    have hmax : max (ing.quantityG - min item.quantity ing.quantityG) 0 =
        max (ing.quantityG - item.quantity) 0 := by
      rcases le_total item.quantity ing.quantityG with h | h
      · rw [min_eq_left h]
      · rw [min_eq_right h, sub_self]
        rw [max_self, eq_comm]
        exact max_eq_right (sub_nonpos.mpr h)
    rw [hmax]

theorem processRequirement_shortfalls_matched
    (nameIndex : List (String × ℕ)) (unitWarnings : List (ℕ × String))
    (st : NormState) (req : IngredientRequirement) (reqAmount : ℚ) (reqType : UnitDomain)
    (iid : ℕ) (buckets : InventoryBuckets)
    (hext : extractRequirementAmount req = some (reqAmount, reqType))
    (hpos : 0 < reqAmount)
    (hres : resolveInventoryId req nameIndex = some iid)
    (hb : dget st.inventory iid = some buckets) :
    (processRequirement nameIndex unitWarnings st req).shortfalls =
      st.shortfalls ++
        (if max (reqAmount - min reqAmount (availableForType buckets reqType)) 0 > dvEpsilon
         then [buildShortfall req reqType
            (max (reqAmount - min reqAmount (availableForType buckets reqType)) 0)
            "insufficient_stock" (some iid)]
         else []) := by
  have hle : ¬ reqAmount ≤ 0 := not_le.mpr hpos
  have humax : max (reqAmount - min reqAmount (availableForType buckets reqType)) 0 =
      reqAmount - min reqAmount (availableForType buckets reqType) :=
    max_eq_left (by simp [min_le_left])
  have hmatch : (resolveInventoryId req nameIndex).bind
      (fun iid => (dget st.inventory iid).map (fun b => (iid, b))) = some (iid, buckets) := by
    rw [hres]
    simp [Option.bind, hb]
  rw [humax]
  by_cases huse : min reqAmount (availableForType buckets reqType) > 0
  · cases hw : dget unitWarnings iid with
    | none =>
      by_cases hdef : reqAmount - min reqAmount (availableForType buckets reqType) > dvEpsilon
      · simp [processRequirement, hext, hle, hmatch, huse, hw, hdef]
      · simp [processRequirement, hext, hle, hmatch, huse, hw, hdef]
    | some msg =>
      by_cases hdef : reqAmount - min reqAmount (availableForType buckets reqType) > dvEpsilon
      · simp [processRequirement, hext, hle, hmatch, huse, hw, hdef]
      · simp [processRequirement, hext, hle, hmatch, huse, hw, hdef]
  · by_cases hdef : reqAmount - min reqAmount (availableForType buckets reqType) > dvEpsilon
    · simp [processRequirement, hext, hle, hmatch, huse, hdef]
    · simp [processRequirement, hext, hle, hmatch, huse, hdef]

theorem processRequirement_matched_usage
    (nameIndex : List (String × ℕ)) (unitWarnings : List (ℕ × String))
    (st : NormState) (req : IngredientRequirement) (reqAmount : ℚ) (reqType : UnitDomain)
    (iid : ℕ) (buckets : InventoryBuckets)
    (hext : extractRequirementAmount req = some (reqAmount, reqType))
    (hpos : 0 < reqAmount)
    (hres : resolveInventoryId req nameIndex = some iid)
    (hb : dget st.inventory iid = some buckets)
    (huse : min reqAmount (availableForType buckets reqType) > 0) :
    (processRequirement nameIndex unitWarnings st req).usage =
      dinsert st.usage iid (addUsage ((dget st.usage iid).getD {}) reqType
        (min reqAmount (availableForType buckets reqType))) := by
  have hle : ¬ reqAmount ≤ 0 := not_le.mpr hpos
  have hmatch : (resolveInventoryId req nameIndex).bind
      (fun iid => (dget st.inventory iid).map (fun b => (iid, b))) = some (iid, buckets) := by
    rw [hres]
    simp [Option.bind, hb]
  cases hw : dget unitWarnings iid with
  | none =>
    by_cases hdef : reqAmount - min reqAmount (availableForType buckets reqType) > dvEpsilon
    · simp [processRequirement, hext, hle, hmatch, huse, hw, hdef, addDiag]
    · simp [processRequirement, hext, hle, hmatch, huse, hw, hdef, addDiag]
  | some msg =>
    by_cases hdef : reqAmount - min reqAmount (availableForType buckets reqType) > dvEpsilon
    · simp [processRequirement, hext, hle, hmatch, huse, hw, hdef, addDiag]
    · simp [processRequirement, hext, hle, hmatch, huse, hw, hdef, addDiag]

theorem processRequirement_shortfalls_unmatched
    (nameIndex : List (String × ℕ)) (unitWarnings : List (ℕ × String))
    (st : NormState) (req : IngredientRequirement) (reqAmount : ℚ) (reqType : UnitDomain)
    (hext : extractRequirementAmount req = some (reqAmount, reqType))
    (hpos : 0 < reqAmount)
    (hmatch : (resolveInventoryId req nameIndex).bind
      (fun iid => (dget st.inventory iid).map (fun b => (iid, b))) = none) :
    (processRequirement nameIndex unitWarnings st req).shortfalls =
      st.shortfalls ++ [buildShortfall req reqType reqAmount "not_in_inventory"
        (resolveInventoryId req nameIndex)] := by
  have hle : ¬ reqAmount ≤ 0 := not_le.mpr hpos
  simp [processRequirement, hext, hle, hmatch]

/-- **C4 (amended)** — Shortfall presence. In `_build_candidate` the shortfall
list is exactly, per ingredient: residual `max(requirement - use_amount, 0)`
(equivalently `max(needed - available, 0)`), recorded rounded to two decimals
when it exceeds the `0.01` threshold for a matched item (not the `1e-6`
epsilon the claim states), full-amount `not_in_inventory` when unmatched and
not optional, nothing when unmatched and optional. In the reconciler a matched
requirement records `max(requirement - use_amount, 0)` exactly, omitted iff
`≤ 1e-6`, and an unresolved requirement records the full amount; every
shortfall either loop emits carries positive amounts and one of the two
reason tags. -/
theorem claim4_shortfalls :
    (∀ (recipe : Recipe) (context : PlanningContext)
        (lookup : List (String × InventoryItem)),
      (buildCandidate recipe context lookup).shoppingShortfall =
        recipe.ingredients.filterMap (buildShortfallSpec lookup)) ∧
    (∀ (nameIndex : List (String × ℕ)) (unitWarnings : List (ℕ × String))
        (st : NormState) (req : IngredientRequirement) (reqAmount : ℚ)
        (reqType : UnitDomain) (iid : ℕ) (buckets : InventoryBuckets),
      extractRequirementAmount req = some (reqAmount, reqType) → 0 < reqAmount →
      resolveInventoryId req nameIndex = some iid →
      dget st.inventory iid = some buckets →
      (processRequirement nameIndex unitWarnings st req).shortfalls =
        st.shortfalls ++
          (if max (reqAmount - min reqAmount (availableForType buckets reqType)) 0 > dvEpsilon
           then [buildShortfall req reqType
              (max (reqAmount - min reqAmount (availableForType buckets reqType)) 0)
              "insufficient_stock" (some iid)]
           else [])) ∧
    (∀ (nameIndex : List (String × ℕ)) (unitWarnings : List (ℕ × String))
        (st : NormState) (req : IngredientRequirement) (reqAmount : ℚ)
        (reqType : UnitDomain),
      extractRequirementAmount req = some (reqAmount, reqType) → 0 < reqAmount →
      (resolveInventoryId req nameIndex).bind
        (fun iid => (dget st.inventory iid).map (fun b => (iid, b))) = none →
      (processRequirement nameIndex unitWarnings st req).shortfalls =
        st.shortfalls ++ [buildShortfall req reqType reqAmount "not_in_inventory"
          (resolveInventoryId req nameIndex)]) ∧
    (∀ (context : PlanningContext) (plan : Plan) (c : PlanCandidate)
        (s : ShoppingShortfall),
      c ∈ (runDiffValidator context plan).candidates → s ∈ c.shoppingShortfall →
      shortfallOk s) := by
  refine ⟨?_, ?_, ?_, ?_⟩
  · intro recipe context lookup
    show recipe.ingredients.filterMap (buildCandidateShortfall lookup) =
      recipe.ingredients.filterMap (buildShortfallSpec lookup)
    induction recipe.ingredients with
    | nil => rfl
    | cons ing rest ih =>
      simp only [List.filterMap_cons]
      rw [buildCandidateShortfall_eq_spec, ih]
  · intro nameIndex unitWarnings st req reqAmount reqType iid buckets hext hpos hres hb
    exact processRequirement_shortfalls_matched nameIndex unitWarnings st req reqAmount
      reqType iid buckets hext hpos hres hb
  · intro nameIndex unitWarnings st req reqAmount reqType hext hpos hmatch
    exact processRequirement_shortfalls_unmatched nameIndex unitWarnings st req reqAmount
      reqType hext hpos hmatch
  · intro context plan c s hc hs
    rw [runDiffValidator_candidates] at hc
    obtain ⟨cand, hcand, rfl⟩ := List.mem_map.mp hc
    rw [normalizeCandidate_shortfalls] at hs
    obtain ⟨-, -, -, hok⟩ := candidateNormState_inv context cand
    exact hok s hs

/-- Inventory index for the `_build_candidate` counterexample: two matched
items, one with a residual inside `(1e-6, 0.01]`, one with a residual whose
two-decimal rounding changes it. -/
def lookupC4 : List (String × InventoryItem) :=
  [("stock a", ⟨1, "stock a", 2.23, "g", none⟩),
   ("stock b", ⟨2, "stock b", 1, "g", none⟩)]

/-- Recipe requiring `2.2345` of each item: residuals `0.0045` and `1.2345`. -/
def recipeC4 : Recipe :=
  { title := "Counterexample Dish",
    ingredients := [⟨"stock a", 2.2345, false⟩, ⟨"stock b", 2.2345, false⟩],
    tags := [], steps := [], estimatedTimeMin := 10, primaryIngredients := [] }

/-- **C4 (counterexample)** — against `lookupC4`, ingredient `stock a` has
residual `0.0045`, which exceeds the claimed `1e-6`-scale epsilon yet produces
no shortfall (the code's threshold is `0.01`); ingredient `stock b` has
residual `1.2345` but the recorded amount is the rounded `1.23`, not
`max(requirement - use_amount, 0)` as claimed. -/
theorem claim4_cx :
    (buildCandidate recipeC4 { date := 0 } lookupC4).shoppingShortfall =
      [⟨some 2, "stock b", some 1.23, none, none, some "insufficient_stock"⟩] ∧
    ((2.2345:ℚ) - 2.23 > 1/1000000) ∧
    ((1.23:ℚ) ≠ 2.2345 - 1) := by
  refine ⟨?_, by norm_num, by norm_num⟩
  show List.filterMap (buildCandidateShortfall lookupC4) recipeC4.ingredients = _
  have h1 : buildCandidateShortfall lookupC4 ⟨"stock a", 2.2345, false⟩ = none := by
    have hres : resolveInventoryItem (normalizeName "stock a") lookupC4 =
        some ⟨1, "stock a", 2.23, "g", none⟩ := rfl
    unfold buildCandidateShortfall
    rw [hres]
    simp only
    rw [if_neg (by norm_num)]
  have h2 : buildCandidateShortfall lookupC4 ⟨"stock b", 2.2345, false⟩ =
      some ⟨some 2, "stock b", some 1.23, none, none, some "insufficient_stock"⟩ := by
    have hres : resolveInventoryItem (normalizeName "stock b") lookupC4 =
        some ⟨2, "stock b", 1, "g", none⟩ := rfl
    unfold buildCandidateShortfall
    rw [hres]
    simp only
    rw [if_pos (by norm_num)]
    have hround : roundTo 2 (max ((2.2345:ℚ) - 1) 0) = 1.23 := by
      rw [max_eq_left (by norm_num)]
      unfold roundTo qround
      have h45 : ((2.2345:ℚ) - 1) * 10 ^ 2 + 1/2 = 2479/20 := by norm_num
      rw [h45]
      have hf : ⌊(2479/20 : ℚ)⌋ = 123 := by
        rw [Int.floor_eq_iff]
        norm_num
      rw [hf]
      norm_num
    rw [hround]
  show [buildCandidateShortfall lookupC4 ⟨"stock a", 2.2345, false⟩,
      buildCandidateShortfall lookupC4 ⟨"stock b", 2.2345, false⟩].filterMap id = _
  rw [h1, h2]
  rfl

/-! ## Claim C5 — per-candidate independence -/

/-- **C5** — Per-candidate independence: `DiffValidator.run` reconciles every
candidate against its own fresh clone of the converted inventory buckets, so
the reconciled candidate at any position equals the one obtained by
reconciling that candidate as the only member of a plan. -/
theorem claim5_candidate_independence (context : PlanningContext) (plan : Plan)
    (i : ℕ) (c : PlanCandidate) (h : plan.candidates[i]? = some c) :
    (runDiffValidator context plan).candidates[i]? =
      (runDiffValidator context ⟨plan.date, [c]⟩).candidates[0]? := by
  rw [runDiffValidator_candidates, runDiffValidator_candidates]
  rw [List.getElem?_map, List.getElem?_map]
  rw [h]
  rfl

/-! ## Claim C9 — delta aggregation -/

theorem maybeValue_none_iff (x : ℚ) : maybeValue (some x) = none ↔ x ≤ dvEpsilon := by
  by_cases h : x > dvEpsilon
  · simp only [maybeValue, if_pos h]
    constructor
    · intro hx
      exact absurd hx (Option.some_ne_none x)
    · intro hle
      exact absurd hle (not_le.mpr h)
  · simp only [maybeValue, if_neg h]
    simp [not_lt.mp h]

/-- **C9** — Delta aggregation: every reconciled candidate has at most one
`InventoryDelta` per inventory id (the usage dict is keyed by id, so the
clamped usages of several requirements resolving to one id are summed into a
single record per unit domain), and a field of the record is `None` exactly
when the accumulated usage in that domain is `≤ 1e-6`. -/
theorem claim9_delta_aggregation (context : PlanningContext) (plan : Plan)
    (i : ℕ) (cand : PlanCandidate) (h : plan.candidates[i]? = some cand) :
    ∃ c, (runDiffValidator context plan).candidates[i]? = some c ∧
      ((c.inventoryDeltas.map (fun d => d.ingredientId)).Nodup) ∧
      c.inventoryDeltas = deltasOfUsage (candidateNormState context cand).usage ∧
      (∀ d ∈ c.inventoryDeltas, ∃ u,
        dget (candidateNormState context cand).usage d.ingredientId = some u ∧
        d.useG = maybeValue (some u.useG) ∧
        d.useMl = maybeValue (some u.useMl) ∧
        d.useCount = maybeValue (some u.useCount) ∧
        (d.useG = none ↔ u.useG ≤ dvEpsilon) ∧
        (d.useMl = none ↔ u.useMl ≤ dvEpsilon) ∧
        (d.useCount = none ↔ u.useCount ≤ dvEpsilon)) := by
  obtain ⟨hnd, -, -, -⟩ := candidateNormState_inv context cand
  refine ⟨normalizeCandidate cand (buildInventoryState context.inventory).1
    (buildNameIndex context.inventory) (buildInventoryState context.inventory).2,
    ?_, ?_, normalizeCandidate_deltas context cand, ?_⟩
  · rw [runDiffValidator_candidates, List.getElem?_map, h]
    rfl
  · rw [normalizeCandidate_deltas]
    unfold deltasOfUsage
    rw [List.map_map]
    exact hnd
  · intro d hd
    rw [normalizeCandidate_deltas] at hd
    obtain ⟨p, hp, rfl⟩ := List.mem_map.mp hd
    have hget : dget (candidateNormState context cand).usage p.1 = some p.2 :=
      dget_eq_some_of_mem _ _ _ hnd (by simpa using hp)
    exact ⟨p.2, hget, rfl, rfl, rfl,
      maybeValue_none_iff p.2.useG, maybeValue_none_iff p.2.useMl,
      maybeValue_none_iff p.2.useCount⟩

/-! ## Concrete fixtures for the witnesses -/

/-- 500 g of rice, inventory id 1. -/
def itemC5 : InventoryItem := ⟨1, "rice", 500, "g", none⟩

/-- Context holding only the rice. -/
def ctxC5 : PlanningContext := { date := 0, inventory := [itemC5] }

/-- A requirement for all 500 g of the rice, resolved by id. -/
def reqC5 : IngredientRequirement := ⟨some 1, "rice", some 500, none, none⟩

/-- A candidate using 100% of the scarce stock. -/
def candC5 : PlanCandidate :=
  { title := "Rice Bowl", servings := some 2, ingredientsRequired := [reqC5] }

/-- Two identical candidates, both requiring 100% of the same stock. -/
def planC5 : Plan := ⟨0, [candC5, candC5]⟩

theorem buildInventoryStateC5 :
    buildInventoryState ctxC5.inventory = ([(1, ⟨500, 0, 0⟩)], []) := by
  have h : buildInventoryState ctxC5.inventory = ([(1, ⟨500 * 1, 0, 0⟩)], []) := rfl
  rw [h]
  norm_num

theorem buildNameIndexC5 : buildNameIndex ctxC5.inventory = [("rice", 1)] := rfl

theorem candC5_state :
    (candidateNormState ctxC5 candC5).usage = [(1, ⟨500, 0, 0⟩)] ∧
    (candidateNormState ctxC5 candC5).shortfalls = [] := by
  have hc : candidateNormState ctxC5 candC5 =
      processRequirement [("rice", 1)] []
        { inventory := [(1, (⟨500, 0, 0⟩ : InventoryBuckets))] } reqC5 := by
    unfold candidateNormState
    rw [buildInventoryStateC5, buildNameIndexC5]
    rfl
  constructor
  · rw [hc, processRequirement_matched_usage [("rice", 1)] []
      { inventory := [(1, (⟨500, 0, 0⟩ : InventoryBuckets))] } reqC5 500 .g 1 ⟨500, 0, 0⟩
      rfl (by norm_num) rfl rfl (by norm_num [availableForType])]
    norm_num [dinsert, dget, addUsage, availableForType]
  · rw [hc, processRequirement_shortfalls_matched [("rice", 1)] []
      { inventory := [(1, (⟨500, 0, 0⟩ : InventoryBuckets))] } reqC5 500 .g 1 ⟨500, 0, 0⟩
      rfl (by norm_num) rfl rfl]
    norm_num [availableForType, dvEpsilon]

/-- Recipe failing the diet rule under `ctxC3`. -/
def recipeC3 : Recipe :=
  { title := "Omnivore Roast", ingredients := [], tags := ["omnivore"], steps := [],
    estimatedTimeMin := 10, primaryIngredients := [] }

/-- Vegan-preference context for the C3 witness. -/
def ctxC3 : PlanningContext := { date := 0, prefs := { diet := some "vegan" } }

/-- Empty recipe for the C10 witness. -/
def recipeC10 : Recipe :=
  { title := "Plain", ingredients := [], tags := [], steps := [],
    estimatedTimeMin := 10, primaryIngredients := [] }

/-- Empty context for the C10 witness. -/
def ctxC10 : PlanningContext := { date := 0 }

/-- The evaluation the default engine produces for `recipeC10` in `ctxC10`. -/
def evalC10 : ConstraintEvaluation :=
  ⟨recipeC10, 0,
    [⟨"diet_compatibility", true, 0, []⟩, ⟨"allergen_exclusion", true, 0, []⟩,
     ⟨"time_limit", true, 0, []⟩, ⟨"inventory_coverage", true, 0, []⟩,
     ⟨"expiry_priority", true, 0, []⟩, ⟨"leftover_utilization", true, 0, []⟩,
     ⟨"recency_penalty", true, 0, []⟩, ⟨"attendee_scaling", true, 0, []⟩]⟩

theorem evalC10_eq :
    evaluateRecipe defaultHardRules defaultSoftRules recipeC10 (buildSnapshot ctxC10) =
      some evalC10 := by
  have h1 : dietCompatibilityRule recipeC10 (buildSnapshot ctxC10) =
      ⟨"diet_compatibility", true, 0, []⟩ := rfl
  have h2 : allergenExclusionRule recipeC10 (buildSnapshot ctxC10) =
      ⟨"allergen_exclusion", true, 0, []⟩ := rfl
  have h3 : maxTimeRule recipeC10 (buildSnapshot ctxC10) =
      ⟨"time_limit", true, 0, []⟩ := rfl
  have h4 : inventoryCoverageRule recipeC10 (buildSnapshot ctxC10) =
      ⟨"inventory_coverage", true, 0, []⟩ := rfl
  have h5 : bestBeforePriorityRule recipeC10 (buildSnapshot ctxC10) =
      ⟨"expiry_priority", true, 0, []⟩ := rfl
  have h6 : leftoverUtilizationRule recipeC10 (buildSnapshot ctxC10) =
      ⟨"leftover_utilization", true, 0, []⟩ := rfl
  have h7 : recencyPenaltyRule recipeC10 (buildSnapshot ctxC10) =
      ⟨"recency_penalty", true, 0, []⟩ := rfl
  have h8 : attendeeScalingRule recipeC10 (buildSnapshot ctxC10) =
      ⟨"attendee_scaling", true, 0, []⟩ := rfl
  simp only [evaluateRecipe, evalHardRules, defaultHardRules, defaultSoftRules,
    h1, h2, h3, h4, h5, h6, h7, h8, List.map_cons, List.map_nil]
  norm_num [evalC10]

/-- State and requirement for the C4 witness: 600 requested, 500 in stock. -/
def stC4 : NormState := { inventory := [(1, ⟨500, 0, 0⟩)] }

/-- Requirement of 600 g of the id-1 item. -/
def reqC4w : IngredientRequirement := ⟨some 1, "rice", some 600, none, none⟩

/-! ## Witnesses -/

/-- Concrete instance of C1 at a fully-used 500 g stock. -/
theorem claim1_witness :
    (∀ v, ((⟨1, some 500, none, none⟩ : InventoryDelta)).useG = some v →
      0 < v ∧ v ≤ bucketVal (buildInventoryState ctxC5.inventory).1 1 .g) ∧
    (∀ v, ((⟨1, some 500, none, none⟩ : InventoryDelta)).useMl = some v →
      0 < v ∧ v ≤ bucketVal (buildInventoryState ctxC5.inventory).1 1 .ml) ∧
    (∀ v, ((⟨1, some 500, none, none⟩ : InventoryDelta)).useCount = some v →
      0 < v ∧ v ≤ bucketVal (buildInventoryState ctxC5.inventory).1 1 .cnt) := by
  refine claim1_no_overdraft.1 ctxC5 planC5
    (normalizeCandidate candC5 (buildInventoryState ctxC5.inventory).1
      (buildNameIndex ctxC5.inventory) (buildInventoryState ctxC5.inventory).2)
    ⟨1, some 500, none, none⟩ ?_ ?_
  · rw [runDiffValidator_candidates]
    exact List.mem_map.mpr ⟨candC5, by simp [planC5], rfl⟩
  · rw [normalizeCandidate_deltas, candC5_state.1]
    unfold deltasOfUsage
    norm_num [maybeValue, dvEpsilon]

/-- Concrete instance of C3: a vegan context excludes an omnivore-only recipe. -/
theorem claim3_witness :
    (¬ (dietCompatibilityRule recipeC3 (buildSnapshot ctxC3)).passed = true) ∧
    (∀ e ∈ rankRecipes defaultHardRules defaultSoftRules ctxC3 [recipeC3],
      e.recipe ≠ recipeC3) :=
  ⟨by decide, claim3_hard_rule_exclusion ctxC3 [recipeC3] recipeC3 (Or.inl (by decide))⟩

/-- Concrete instance of C4's matched-requirement characterization. -/
theorem claim4_witness :
    (processRequirement [("rice", 1)] [] stC4 reqC4w).shortfalls =
      stC4.shortfalls ++
        (if max ((600:ℚ) - min 600 (availableForType ⟨500, 0, 0⟩ .g)) 0 > dvEpsilon
         then [buildShortfall reqC4w .g
            (max ((600:ℚ) - min 600 (availableForType ⟨500, 0, 0⟩ .g)) 0)
            "insufficient_stock" (some 1)]
         else []) :=
  claim4_shortfalls.2.1 [("rice", 1)] [] stC4 reqC4w 600 .g 1 ⟨500, 0, 0⟩
    rfl (by norm_num) rfl rfl

/-- Concrete instance of C5, with the scarce-stock scenario: both of the two
identical candidates that each require 100% of the stock end up with the full
500 g delta and no shortfall. -/
theorem claim5_witness :
    ((runDiffValidator ctxC5 planC5).candidates[1]? =
      (runDiffValidator ctxC5 ⟨planC5.date, [candC5]⟩).candidates[0]?) ∧
    (∀ c ∈ (runDiffValidator ctxC5 planC5).candidates,
      c.inventoryDeltas = [⟨1, some 500, none, none⟩] ∧ c.shoppingShortfall = []) := by
  refine ⟨claim5_candidate_independence ctxC5 planC5 1 candC5 rfl, ?_⟩
  intro c hc
  rw [runDiffValidator_candidates] at hc
  obtain ⟨cand, hcand, rfl⟩ := List.mem_map.mp hc
  have hcand' : cand = candC5 := by
    simp only [planC5, List.mem_cons, List.not_mem_nil, or_false] at hcand
    rcases hcand with h | h <;> exact h
  subst hcand'
  constructor
  · rw [normalizeCandidate_deltas, candC5_state.1]
    unfold deltasOfUsage
    norm_num [maybeValue, dvEpsilon]
  · rw [normalizeCandidate_shortfalls, candC5_state.2]

/-- Concrete instance of C7's failure detail. -/
theorem claim7_witness :
    (dietCompatibilityRule recipeC7 (buildSnapshot ctxC7)).details =
      ["recipe missing tag for diet 'vegan'"] := by
  have h := (claim7_diet_rule recipeC7 (buildSnapshot ctxC7)).2 (by decide)
  rw [h]
  rfl

/-- Concrete instance of C8's empty-recent-meals branch. -/
theorem claim8_witness :
    recencyPenaltyRule recipeC8 (buildSnapshot ctxC8a) =
      ⟨"recency_penalty", true, 0, []⟩ :=
  (claim8_recency_rule recipeC8 (buildSnapshot ctxC8a)).1 rfl

/-- Concrete instance of C9 on the rice plan. -/
theorem claim9_witness :
    ∃ c, (runDiffValidator ctxC5 planC5).candidates[0]? = some c ∧
      ((c.inventoryDeltas.map (fun d => d.ingredientId)).Nodup) ∧
      c.inventoryDeltas = deltasOfUsage (candidateNormState ctxC5 candC5).usage ∧
      (∀ d ∈ c.inventoryDeltas, ∃ u,
        dget (candidateNormState ctxC5 candC5).usage d.ingredientId = some u ∧
        d.useG = maybeValue (some u.useG) ∧
        d.useMl = maybeValue (some u.useMl) ∧
        d.useCount = maybeValue (some u.useCount) ∧
        (d.useG = none ↔ u.useG ≤ dvEpsilon) ∧
        (d.useMl = none ↔ u.useMl ≤ dvEpsilon) ∧
        (d.useCount = none ↔ u.useCount ≤ dvEpsilon)) :=
  claim9_delta_aggregation ctxC5 planC5 0 candC5 rfl

/-- Concrete instance of C10 on an empty context. -/
theorem claim10_witness :
    evalC10.score = ((defaultSoftRules.map
        (fun rule => (rule recipeC10 (buildSnapshot ctxC10)).scoreAdjustment)).sum) ∧
    evalC10.ruleResults =
      (defaultHardRules.map (fun rule => rule recipeC10 (buildSnapshot ctxC10))) ++
        (defaultSoftRules.map (fun rule => rule recipeC10 (buildSnapshot ctxC10))) ∧
    (∀ rule ∈ defaultHardRules,
      (rule recipeC10 (buildSnapshot ctxC10)).scoreAdjustment = 0 ∨
      (rule recipeC10 (buildSnapshot ctxC10)).scoreAdjustment = 0.5 ∨
      (rule recipeC10 (buildSnapshot ctxC10)).scoreAdjustment = 0.3 ∨
      (rule recipeC10 (buildSnapshot ctxC10)).scoreAdjustment = 0.2) :=
  claim10_soft_only_score recipeC10 (buildSnapshot ctxC10) evalC10 evalC10_eq

end Remy
